import Mathlib

set_option maxRecDepth 8000

/-!
Shallow embedding of the ponder graph store, batch committer, staging
manager and orchestrator spawn pass, together with proofs of the
specification claims about them.

Conventions of the embedding:
* opaque ids (36-char UUID strings in the source) are modelled as `Nat`;
* timestamps (`CURRENT_TIMESTAMP`, `time.Now()`) are modelled as `Int`
  values passed explicitly as `now`;
* `NULL`-able columns are `Option`;
* fallible store operations return `Except String`.
-/

namespace Ponder

/-- Task status enumeration from pkg/models/task.go and the tasks table
CHECK constraint. -/
inductive TaskStatus where
  | pending
  | inProgress
  | completed
  | blocked
deriving DecidableEq, Repr

/-- One row of the tasks table (models.Task joined with its schema columns). -/
structure TaskRow where
  id : Nat
  featureId : Nat
  name : String
  description : String
  specification : String
  priority : Int
  testsRequired : Bool
  status : TaskStatus
  completionSummary : Option String
  createdAt : Int
  updatedAt : Int
  startedAt : Option Int
  completedAt : Option Int
deriving DecidableEq, Repr

/-- One row of the features table. -/
structure FeatureRow where
  id : Nat
  name : String
  description : String
  specification : String
  createdAt : Int
  updatedAt : Int
deriving DecidableEq, Repr

/-- The persistent store: the features and tasks tables and the
dependencies table, an edge `(taskId, dependsOnTaskId)` meaning the task
depends on the prerequisite. -/
structure Store where
  features : List FeatureRow
  tasks : List TaskRow
  deps : List (Nat × Nat)
deriving DecidableEq, Repr

/-- Look a task up by id, as `GetTask` / the SQL `WHERE t.id = ?`. -/
def findTask (s : Store) (id : Nat) : Option TaskRow :=
  s.tasks.find? (fun t => t.id = id)

/-- The tasks table CHECK constraints that involve updatable columns:
`priority` within `[0, 10]` and `status != completed OR
completion_summary IS NOT NULL`.  SQLite re-evaluates them on every
UPDATE of a row. -/
def rowCheckOk (t : TaskRow) : Bool :=
  (0 ≤ t.priority && t.priority ≤ 10) &&
    (t.status ≠ TaskStatus.completed || t.completionSummary.isSome)

/-- Transition validation from `validateStatusTransition` in the db
package: same-state is always allowed, otherwise only the listed moves. -/
def validateStatusTransition (src dst : TaskStatus) : Bool :=
  if src = dst then true
  else
    match src with
    | TaskStatus.pending => dst = TaskStatus.inProgress || dst = TaskStatus.blocked
    | TaskStatus.inProgress =>
        dst = TaskStatus.completed || dst = TaskStatus.blocked || dst = TaskStatus.pending
    | TaskStatus.completed => dst = TaskStatus.inProgress
    | TaskStatus.blocked => dst = TaskStatus.pending || dst = TaskStatus.inProgress

/-- Effect of `UPDATE tasks SET status = ?, completion_summary = ? WHERE id = ?`
on one row, including the three AFTER UPDATE triggers of the schema
(recursive triggers are off in SQLite, and each trigger WHEN clause is
evaluated against the OLD/NEW rows of the triggering statement):
`set_started_at` fires whenever the new status is in_progress and the old
one is not, `set_completed_at` likewise for completed, and
`set_tasks_updated_at` fires because the statement did not touch
updated_at. -/
def applyStatusUpdate (old : TaskRow) (dst : TaskStatus) (summary : Option String)
    (now : Int) : TaskRow :=
  let u : TaskRow := { old with status := dst, completionSummary := summary }
  let u : TaskRow :=
    if dst = TaskStatus.inProgress ∧ old.status ≠ TaskStatus.inProgress then
      { u with startedAt := some now } else u
  let u : TaskRow :=
    if dst = TaskStatus.completed ∧ old.status ≠ TaskStatus.completed then
      { u with completedAt := some now } else u
  { u with updatedAt := now }

/-- Apply an update function to every row whose id matches, as an SQL
`UPDATE ... WHERE id = ?`. -/
def mapUpdate (tasks : List TaskRow) (tid : Nat) (g : TaskRow → TaskRow) : List TaskRow :=
  tasks.map (fun u => if u.id = tid then g u else u)

/-- `UpdateTaskStatus` from the db package: fetch the task, validate the
transition, then run the UPDATE; the UPDATE itself fails when the new row
violates a CHECK constraint, leaving the row unchanged. -/
def updateTaskStatus (s : Store) (id : Nat) (dst : TaskStatus)
    (summary : Option String) (now : Int) : Except String Store :=
  match findTask s id with
  | none => Except.error "task not found"
  | some current =>
    if validateStatusTransition current.status dst then
      if rowCheckOk { current with status := dst, completionSummary := summary } then
        Except.ok { s with
          tasks := mapUpdate s.tasks id (fun t => applyStatusUpdate t dst summary now) }
      else Except.error "failed to update task status"
    else Except.error "invalid transition"

/-- Availability predicate of `v_available_tasks` and of the subquery in
`ClaimNextTask`: status pending and no dependency row whose prerequisite
task exists and is not completed. -/
def isAvailable (s : Store) (t : TaskRow) : Bool :=
  t.status = TaskStatus.pending &&
    !(s.deps.any (fun d =>
      d.1 = t.id && s.tasks.any (fun p => p.id = d.2 && p.status ≠ TaskStatus.completed)))

/-- Strict comparison for `ORDER BY priority DESC, created_at ASC`:
`a` sorts strictly before `b`. -/
def orderedBefore (a b : TaskRow) : Bool :=
  b.priority < a.priority || (a.priority = b.priority && a.createdAt < b.createdAt)

/-- Reflexive comparison for the same ordering. -/
def orderedNotAfter (a b : TaskRow) : Bool :=
  b.priority < a.priority || (a.priority = b.priority && a.createdAt ≤ b.createdAt)

/-- One comparison step of the `LIMIT 1` selection: keep the current
best unless the candidate sorts strictly before it. -/
def chooseEarlier (acc : Option TaskRow) (t : TaskRow) : Option TaskRow :=
  match acc with
  | none => some t
  | some b => if orderedBefore t b then some t else some b

/-- Selection of `ORDER BY priority DESC, created_at ASC LIMIT 1`: the
earliest listed row among those minimal for the ordering. -/
def selectFirstOrdered (ts : List TaskRow) : Option TaskRow :=
  ts.foldl chooseEarlier none

/-- Row effect of the claiming UPDATE (`SET status = 'in_progress'`) with
its triggers: started_at is set because the old status was not
in_progress, and updated_at is refreshed. -/
def claimUpdate (old : TaskRow) (now : Int) : TaskRow :=
  let u : TaskRow := { old with status := TaskStatus.inProgress }
  let u : TaskRow :=
    if old.status ≠ TaskStatus.inProgress then { u with startedAt := some now } else u
  { u with updatedAt := now }

/-- `ClaimNextTask`: one UPDATE that selects the first available task in
the ordering and transitions it to in_progress, returning the claimed
row, or `none` leaving the store unchanged when no task is available. -/
def claimNextTask (s : Store) (now : Int) : Option TaskRow × Store :=
  match selectFirstOrdered (s.tasks.filter (isAvailable s)) with
  | none => (none, s)
  | some t0 =>
    (some (claimUpdate t0 now),
     { s with tasks := mapUpdate s.tasks t0.id (fun t => claimUpdate t now) })

/-- `ResetInProgressTasks`: `UPDATE tasks SET status = 'pending' WHERE
status = 'in_progress'`.  Only `set_tasks_updated_at` fires for the
updated rows; started_at and completed_at are untouched, and the CHECK
constraints cannot fail because only the status changes, to pending. -/
def resetInProgressTasks (s : Store) (now : Int) : Store :=
  { s with
    tasks := s.tasks.map (fun t =>
      if t.status = TaskStatus.inProgress then
        { t with status := TaskStatus.pending, updatedAt := now }
      else t) }

/-- One-step successors in the dependency graph: the prerequisites the
given task directly depends on (`SELECT depends_on_task_id FROM
dependencies WHERE task_id = x`). -/
def succs (deps : List (Nat × Nat)) (x : Nat) : List Nat :=
  (deps.filter (fun d => d.1 = x)).map (fun d => d.2)

/-- Bounded reachability of the `prevent_circular_dependencies` trigger:
the recursive CTE enumerates all walks of length 1 up to the fuel from
`x` along dependency edges and asks whether `target` occurs. -/
def reachableWithin (deps : List (Nat × Nat)) (x target : Nat) : Nat → Bool
  | 0 => false
  | n + 1 =>
    (succs deps x).any (fun y => y = target || reachableWithin deps y target n)

/-- `CreateDependency` / the dependencies INSERT path: the self-edge
CHECK, both foreign keys, the primary key, and the
`prevent_circular_dependencies` BEFORE INSERT trigger whose recursive
walk from the prerequisite is cut off at depth 500. -/
def createDependency (s : Store) (u v : Nat) : Except String Store :=
  if u = v then Except.error "self dependency"
  else if s.tasks.any (fun t => t.id = u) then
    if s.tasks.any (fun t => t.id = v) then
      if (u, v) ∈ s.deps then Except.error "duplicate dependency"
      else if reachableWithin s.deps v u 500 then
        Except.error "Circular dependencies are not allowed!"
      else Except.ok { s with deps := (u, v) :: s.deps }
    else Except.error "task not found"
  else Except.error "task not found"

/-! ## Staging manager and batch committer -/

/-- A staged feature: the id may still be empty (`none`). -/
structure SFeature where
  id : Option Nat
  name : String
  description : String
  specification : String
deriving DecidableEq, Repr

/-- A staged task: carries its owning feature by name; id and feature id
may be empty. -/
structure STask where
  id : Option Nat
  featureId : Option Nat
  featureName : String
  name : String
  description : String
  specification : String
  priority : Int
  testsRequired : Bool
  status : TaskStatus
deriving DecidableEq, Repr

/-- A staged dependency: carries both endpoints by (feature name, task
name); the ids may be empty. -/
structure SDep where
  taskId : Option Nat
  featureName : String
  taskName : String
  dependsOnTaskId : Option Nat
  dependsOnFeatureName : String
  dependsOnTaskName : String
deriving DecidableEq, Repr

/-- The per-session staged buffers. -/
structure StagedItems where
  features : List SFeature
  tasks : List STask
  dependencies : List SDep
deriving DecidableEq, Repr

def StagedItems.empty : StagedItems := ⟨[], [], []⟩

/-- The staging manager map from session key to buffer, with at most one
entry per key. -/
abbrev StagingMap := List (String × StagedItems)

/-- `Peek`: the session buffer, or an empty buffer when absent. -/
def peekStaged (sm : StagingMap) (session : String) : StagedItems :=
  match sm.find? (fun p => p.1 = session) with
  | none => StagedItems.empty
  | some p => p.2

/-- `GetAndClear`: atomically take and remove the session buffer; an
absent session yields an empty buffer and leaves the map untouched. -/
def getAndClear (sm : StagingMap) (session : String) : StagedItems × StagingMap :=
  match sm.find? (fun p => p.1 = session) with
  | none => (StagedItems.empty, sm)
  | some p => (p.2, sm.filter (fun q => q.1 ≠ session))

/-- `createFeature` inside the transaction: assign a fresh id when empty,
then INSERT, which fails on a duplicate id or name. -/
def createFeatureTx (s : Store) (f : SFeature) (fresh : Nat) (now : Int) :
    Except String (Store × Nat × Nat) :=
  let fid := f.id.getD fresh
  let fresh' := if f.id.isSome then fresh else fresh + 1
  if s.features.any (fun g => g.id = fid) then Except.error "failed to create feature"
  else if s.features.any (fun g => g.name = f.name) then
    Except.error "failed to create feature"
  else
    Except.ok
      ({ s with features :=
          s.features ++ [⟨fid, f.name, f.description, f.specification, now, now⟩] },
       fid, fresh')

/-- Resolution of a staged task's owning feature, as `CommitBatch` does it:
only when the staged feature id is empty and a feature name is present,
consult the in-batch map first and then the store (within the
transaction); otherwise the staged id (possibly empty) is used as-is. -/
def resolveStagedFeature (s : Store) (featureIDs : List (String × Nat)) (t : STask) :
    Except String (Option Nat) :=
  match t.featureId with
  | some fid => Except.ok (some fid)
  | none =>
    if t.featureName ≠ "" then
      match featureIDs.find? (fun p => p.1 = t.featureName) with
      | some p => Except.ok (some p.2)
      | none =>
        match s.features.find? (fun g => g.name = t.featureName) with
        | some f => Except.ok (some f.id)
        | none => Except.error "feature not found for task"
    else Except.ok none

/-- `createTask` inside the transaction: assign a fresh id when empty,
then INSERT, which fails on a duplicate id, an unresolved or unknown
feature id (foreign key), a duplicate (name, feature_id), or a CHECK
violation (priority range, completed without summary). -/
def createTaskTx (s : Store) (t : STask) (fid? : Option Nat) (fresh : Nat) (now : Int) :
    Except String (Store × Nat × Nat) :=
  let tid := t.id.getD fresh
  let fresh' := if t.id.isSome then fresh else fresh + 1
  match fid? with
  | none => Except.error "failed to create task"
  | some fid =>
    if s.tasks.any (fun g => g.id = tid) then Except.error "failed to create task"
    else if ¬ s.features.any (fun g => g.id = fid) then
      Except.error "failed to create task"
    else if s.tasks.any (fun g => g.name = t.name && g.featureId = fid) then
      Except.error "failed to create task"
    else if ¬ (0 ≤ t.priority ∧ t.priority ≤ 10) then
      Except.error "failed to create task"
    else if t.status = TaskStatus.completed then Except.error "failed to create task"
    else
      Except.ok
        ({ s with tasks := s.tasks ++
            [⟨tid, fid, t.name, t.description, t.specification, t.priority,
              t.testsRequired, t.status, none, now, now, none, none⟩] },
         tid, fresh')

/-- `resolveTaskIDTx`: look the feature up by name, then the task by
(name, feature id), inside the transaction. -/
def resolveTaskIDTx (s : Store) (featureName taskName : String) : Except String Nat :=
  match s.features.find? (fun g => g.name = featureName) with
  | none => Except.error "feature not found"
  | some f =>
    match s.tasks.find? (fun g => g.name = taskName && g.featureId = f.id) with
    | none => Except.error "task not found in feature"
    | some t => Except.ok t.id

/-- Resolution of one dependency endpoint, as `CommitBatch` does it: only
when the staged id is empty, consult the in-batch task map under the key
`featureName ++ ":" ++ taskName` first and then `resolveTaskIDTx`. -/
def resolveDepEndpoint (s : Store) (taskIDs : List (String × Nat))
    (given : Option Nat) (featureName taskName : String) : Except String Nat :=
  match given with
  | some tid => Except.ok tid
  | none =>
    match taskIDs.find? (fun p => p.1 = featureName ++ ":" ++ taskName) with
    | some p => Except.ok p.2
    | none => resolveTaskIDTx s featureName taskName

/-- Pass 1 of `CommitBatch`: insert the staged features in order, building
the in-batch name map (later entries shadow earlier ones, as Go map
assignment does). -/
def commitFeatures (s : Store) (featureIDs : List (String × Nat)) (fresh : Nat)
    (now : Int) : List SFeature → Except String (Store × List (String × Nat) × Nat)
  | [] => Except.ok (s, featureIDs, fresh)
  | f :: rest =>
    match createFeatureTx s f fresh now with
    | Except.error e => Except.error e
    | Except.ok (s', fid, fresh') =>
      commitFeatures s' ((f.name, fid) :: featureIDs) fresh' now rest

/-- Pass 2 of `CommitBatch`: resolve each staged task's feature and insert
it, recording `(featureName ++ ":" ++ name) → id` for dependency
resolution. -/
def commitTasks (s : Store) (featureIDs : List (String × Nat))
    (taskIDs : List (String × Nat)) (fresh : Nat) (now : Int) :
    List STask → Except String (Store × List (String × Nat) × Nat)
  | [] => Except.ok (s, taskIDs, fresh)
  | t :: rest =>
    match resolveStagedFeature s featureIDs t with
    | Except.error e => Except.error e
    | Except.ok fid? =>
      match createTaskTx s t fid? fresh now with
      | Except.error e => Except.error e
      | Except.ok (s', tid, fresh') =>
        commitTasks s' featureIDs ((t.featureName ++ ":" ++ t.name, tid) :: taskIDs)
          fresh' now rest

/-- Pass 3 of `CommitBatch`: resolve both endpoints of each staged
dependency and insert the edge, subject to the store's self-edge,
foreign-key, duplicate and cycle checks. -/
def commitDeps (s : Store) (taskIDs : List (String × Nat)) :
    List SDep → Except String Store
  | [] => Except.ok s
  | d :: rest =>
    match resolveDepEndpoint s taskIDs d.taskId d.featureName d.taskName with
    | Except.error e => Except.error e
    | Except.ok u =>
      match resolveDepEndpoint s taskIDs d.dependsOnTaskId d.dependsOnFeatureName
          d.dependsOnTaskName with
      | Except.error e => Except.error e
      | Except.ok v =>
        match createDependency s u v with
        | Except.error e => Except.error e
        | Except.ok s' => commitDeps s' taskIDs rest

/-- The body of `CommitBatch` inside its transaction: features, then
tasks, then dependencies; the first error aborts. -/
def commitBatch (s : Store) (items : StagedItems) (fresh : Nat) (now : Int) :
    Except String Store :=
  match commitFeatures s [] fresh now items.features with
  | Except.error e => Except.error e
  | Except.ok (s1, featureIDs, fresh1) =>
    match commitTasks s1 featureIDs [] fresh1 now items.tasks with
    | Except.error e => Except.error e
    | Except.ok (s2, taskIDs, _) => commitDeps s2 taskIDs items.dependencies

/-- `CommitBatch` as the caller sees it: `GetAndClear` the session before
starting (the Go nil-check on the result is dead code since `GetAndClear`
never returns nil), run the transaction, and on any error roll it back so
the persistent store is unchanged. -/
def commitBatchFull (sm : StagingMap) (s : Store) (session : String) (fresh : Nat)
    (now : Int) : StagingMap × Store × Option String :=
  let r := getAndClear sm session
  match commitBatch s r.1 fresh now with
  | Except.ok s' => (r.2, s', none)
  | Except.error e => (r.2, s, some e)

/-- Modelled from the spec: step 3 of the batch committer resolves every
staged task's owning feature "by consulting the in-batch map first, then
the store", unconditionally by name. -/
def specResolveStagedFeature (s : Store) (featureIDs : List (String × Nat))
    (t : STask) : Except String (Option Nat) :=
  match featureIDs.find? (fun p => p.1 = t.featureName) with
  | some p => Except.ok (some p.2)
  | none =>
    match s.features.find? (fun g => g.name = t.featureName) with
    | some f => Except.ok (some f.id)
    | none => Except.error "feature not found for task"

/-- Modelled from the spec: step 4 resolves both dependency endpoints "via
the in-batch map first, then the store", unconditionally by name. -/
def specResolveDepEndpoint (s : Store) (taskIDs : List (String × Nat))
    (featureName taskName : String) : Except String Nat :=
  match taskIDs.find? (fun p => p.1 = featureName ++ ":" ++ taskName) with
  | some p => Except.ok p.2
  | none => resolveTaskIDTx s featureName taskName

/-- Modelled from the spec: the task pass with unconditional name
resolution. -/
def specCommitTasks (s : Store) (featureIDs : List (String × Nat))
    (taskIDs : List (String × Nat)) (fresh : Nat) (now : Int) :
    List STask → Except String (Store × List (String × Nat) × Nat)
  | [] => Except.ok (s, taskIDs, fresh)
  | t :: rest =>
    match specResolveStagedFeature s featureIDs t with
    | Except.error e => Except.error e
    | Except.ok fid? =>
      match createTaskTx s t fid? fresh now with
      | Except.error e => Except.error e
      | Except.ok (s', tid, fresh') =>
        specCommitTasks s' featureIDs ((t.featureName ++ ":" ++ t.name, tid) :: taskIDs)
          fresh' now rest

/-- Modelled from the spec: the dependency pass with unconditional name
resolution. -/
def specCommitDeps (s : Store) (taskIDs : List (String × Nat)) :
    List SDep → Except String Store
  | [] => Except.ok s
  | d :: rest =>
    match specResolveDepEndpoint s taskIDs d.featureName d.taskName with
    | Except.error e => Except.error e
    | Except.ok u =>
      match specResolveDepEndpoint s taskIDs d.dependsOnFeatureName
          d.dependsOnTaskName with
      | Except.error e => Except.error e
      | Except.ok v =>
        match createDependency s u v with
        | Except.error e => Except.error e
        | Except.ok s' => specCommitDeps s' taskIDs rest

/-- Modelled from the spec: the whole batch commit as §4.C words it. -/
def specCommitBatch (s : Store) (items : StagedItems) (fresh : Nat) (now : Int) :
    Except String Store :=
  match commitFeatures s [] fresh now items.features with
  | Except.error e => Except.error e
  | Except.ok (s1, featureIDs, fresh1) =>
    match specCommitTasks s1 featureIDs [] fresh1 now items.tasks with
    | Except.error e => Except.error e
    | Except.ok (s2, taskIDs, _) => specCommitDeps s2 taskIDs items.dependencies

/-! ## Orchestrator spawn pass and model list -/

/-- Orchestrator state relevant to the spawn pass: worker registry
(worker id, task id), the failed-task backoff map (task id, failedAt,
failCount), and the rate limiter. -/
structure OrchState where
  maxWorkers : Nat
  targetWorkers : Nat
  workers : List (Nat × Nat)
  failedTasks : List (Nat × Int × Nat)
  backoffDuration : Int
  lastSpawnTime : Option Int
  minSpawnInterval : Int
deriving DecidableEq, Repr

/-- `isTaskInBackoff`: an entry exists and its failure is less than
backoffDuration in the past. -/
def isTaskInBackoff (o : OrchState) (now : Int) (taskID : Nat) : Bool :=
  match o.failedTasks.find? (fun e => e.1 = taskID) with
  | none => false
  | some e => now - e.2.1 < o.backoffDuration

/-- `canSpawn`: the rate limiter; a zero last-spawn time always permits. -/
def canSpawn (o : OrchState) (now : Int) : Bool :=
  match o.lastSpawnTime with
  | none => true
  | some t => o.minSpawnInterval ≤ now - t

/-- `spawnWorkerLocked`: pick the lowest worker id in [1, maxWorkers] not
currently in use. -/
def lowestFreeWorkerId (o : OrchState) : Option Nat :=
  ((List.range o.maxWorkers).map (fun i => i + 1)).find?
    (fun i => ¬ o.workers.any (fun w => w.1 = i))

/-- Register a worker for the task under the lowest free id (a full
registry spawns nothing). -/
def spawnWorkerLocked (o : OrchState) (taskID : Nat) : OrchState :=
  match lowestFreeWorkerId o with
  | none => o
  | some w => { o with workers := o.workers ++ [(w, taskID)] }

/-- `CountAvailableTasks`: the size of the available view. -/
def countAvailableTasks (s : Store) : Nat :=
  (s.tasks.filter (isAvailable s)).length

/-- The claim-and-spawn loop inside `trySpawnWorkers`: up to
`workersToSpawn` iterations, each re-checking the rate limiter, claiming
the next task, and either reverting it to pending when it is in backoff
(the error of that reset is ignored, and the iteration is consumed
without spawning) or registering a worker and advancing the rate-limit
timestamp.  Returns the new orchestrator state, the new store and the
list of task ids actually dispatched. -/
def spawnLoop (now : Int) : Nat → OrchState → Store → OrchState × Store × List Nat
  | 0, o, s => (o, s, [])
  | n + 1, o, s =>
    if canSpawn o now then
      match claimNextTask s now with
      | (none, s') => (o, s', [])
      | (some t, s') =>
        if isTaskInBackoff o now t.id then
          let s'' :=
            match updateTaskStatus s' t.id TaskStatus.pending none now with
            | Except.ok s2 => s2
            | Except.error _ => s'
          spawnLoop now n o s''
        else
          let o' := spawnWorkerLocked { o with lastSpawnTime := some now } t.id
          let r := spawnLoop now n o' s'
          (r.1, r.2.1, t.id :: r.2.2)
    else (o, s, [])

/-- `trySpawnWorkers`: the spawn pass of the supervisor tick, with its
rate-limit, target and ceiling guards, and `workersToSpawn` computed as
the minimum of the available count and the two remaining-slot budgets. -/
def trySpawnWorkers (o : OrchState) (s : Store) (now : Int) :
    OrchState × Store × List Nat :=
  if ¬ canSpawn o now then (o, s, [])
  else
    let active := o.workers.length
    if o.targetWorkers ≤ active then (o, s, [])
    else if o.maxWorkers ≤ active then (o, s, [])
    else
      let avail := countAvailableTasks s
      if avail = 0 then (o, s, [])
      else
        spawnLoop now (min avail (min (o.targetWorkers - active) (o.maxWorkers - active)))
          o s

/-- One iteration of the `SetAvailableModels` loop: skip empty strings
and entries already seen, append anything else. -/
def dedupeStep (acc : List String) (m : String) : List String :=
  if m = "" || acc.contains m then acc else acc ++ [m]

/-- `SetAvailableModels`: filter empty strings and duplicates in order;
when the filtered list is empty fall back to the current model; append
the current model when the loop did not record it (the `seen` map holds
exactly the entries appended by the loop, so the fallback singleton is
not in it). -/
def setAvailableModels (model : String) (ms : List String) : List String :=
  let filtered := ms.foldl dedupeStep []
  let base := if filtered.isEmpty then [model] else filtered
  if filtered.contains model then base else base ++ [model]

/-! ## Walks and cycle bounds -/

/-- Walks along dependency edges: `Walk deps x y n` holds when there is a
walk of exactly `n` edges from `x` to `y`. -/
inductive Walk (deps : List (Nat × Nat)) : Nat → Nat → Nat → Prop where
  | nil (x : Nat) : Walk deps x x 0
  | cons {x y z n : Nat} : (x, y) ∈ deps → Walk deps y z n → Walk deps x z (n + 1)

/-- Absence of short cycles: no closed walk of length between 1 and 501.
This is the invariant the bounded trigger actually maintains (a closing
back-walk of length at most 500 plus the new edge). -/
def noShortCycle (deps : List (Nat × Nat)) : Prop :=
  ∀ x, reachableWithin deps x x 501 = false

/-- A straight dependency chain: task `i+1` depends on task `i+2`, for
`i < n`. -/
def chainDeps (n : Nat) : List (Nat × Nat) :=
  (List.range n).map (fun i => (i + 1, i + 2))

/-- A minimal pending task row with the given id, used to populate the
long-chain store. -/
def chainTask (j : Nat) : TaskRow :=
  ⟨j, 1, "", "", "", 0, true, TaskStatus.pending, none, 0, 0, none, none⟩

/-- A store holding tasks 1..502 and the 501-edge chain. -/
def chainStore : Store :=
  ⟨[⟨1, "f", "", "", 0, 0⟩], (List.range 502).map (fun i => chainTask (i + 1)),
   chainDeps 501⟩

/-- The long-chain store after the cycle-closing edge (502, 1) has been
accepted. -/
def chainStore2 : Store :=
  { chainStore with deps := (502, 1) :: chainDeps 501 }

/-- A two-task store with no edges, used as a concrete witness input. -/
def wStore : Store :=
  ⟨[⟨1, "f", "", "", 0, 0⟩], [chainTask 1, chainTask 2], []⟩

/-- The two-task store after inserting the edge (1, 2). -/
def wStore2 : Store :=
  { wStore with deps := [(1, 2)] }

/-- A pending task row carrying a completion summary. -/
def c5Row : TaskRow :=
  ⟨1, 1, "t", "", "", 5, true, TaskStatus.pending, some "x", 0, 0, none, none⟩

/-- A store whose single pending task carries a completion summary. -/
def c5Store : Store :=
  ⟨[⟨1, "f", "", "", 0, 0⟩], [c5Row], []⟩

/-- The same store after the same-status update at time 7 with a null
summary: the summary is overwritten and updated_at refreshed. -/
def c5Store2 : Store :=
  { c5Store with
    tasks := [⟨1, 1, "t", "", "", 5, true, TaskStatus.pending, none, 0, 7, none, none⟩] }

/-- A completed task row with started_at = 5. -/
def c4Row : TaskRow :=
  ⟨1, 1, "t", "", "", 5, true, TaskStatus.completed, some "done", 0, 0, some 5, some 6⟩

/-- A store whose single task is completed with started_at = 5. -/
def c4Store : Store :=
  ⟨[⟨1, "f", "", "", 0, 0⟩], [c4Row], []⟩

/-- The same store after re-opening the task to in_progress at time 10:
started_at has been re-set to 10 by the trigger. -/
def c4Store2 : Store :=
  { c4Store with
    tasks := [⟨1, 1, "t", "", "", 5, true, TaskStatus.inProgress, none, 0, 10, some 10,
      some 6⟩] }

/-- An orchestrator with two free slots whose task 1 failed at time 100
(30-unit backoff, 500-unit spawn interval, no spawn yet). -/
def c8Orch : OrchState :=
  ⟨2, 2, [], [(1, 100, 1)], 30, none, 500⟩

/-- A store with two pending tasks; task 2 has the higher priority. -/
def c8Store : Store :=
  ⟨[⟨1, "f", "", "", 0, 0⟩],
   [⟨1, 1, "a", "", "", 3, true, TaskStatus.pending, none, 0, 0, none, none⟩,
    ⟨2, 1, "b", "", "", 5, true, TaskStatus.pending, none, 1, 1, none, none⟩], []⟩

/-- A store with no features, tasks or edges. -/
def emptyStore : Store := ⟨[], [], []⟩

/-- A staged batch like scenario S2: one feature, two tasks, one
dependency staged before its task, all referenced by name. -/
def c6Staging : StagingMap :=
  [("sess1",
    ⟨[⟨none, "auth", "d", "s"⟩],
     [⟨none, none, "auth", "hash", "", "", 7, true, TaskStatus.pending⟩,
      ⟨none, none, "auth", "login", "", "", 9, true, TaskStatus.pending⟩],
     [⟨none, "auth", "login", none, "auth", "hash"⟩]⟩)]

/-- A staged batch whose single task names a feature that exists nowhere,
so the commit aborts. -/
def c10Staging : StagingMap :=
  [("s", ⟨[], [⟨none, none, "nope", "t", "", "", 0, true, TaskStatus.pending⟩], []⟩)]

end Ponder

namespace Ponder

/-! ## General lemmas -/

/-- Bounded reachability over an empty edge list always fails. -/
theorem reachableWithin_nil (x t : Nat) : ∀ fuel, reachableWithin [] x t fuel = false := by
  intro fuel
  cases fuel with
  | zero => rfl
  | succ n => simp [reachableWithin, succs]

/-- Membership in the one-step successor list is edge membership. -/
theorem mem_succs {deps : List (Nat × Nat)} {x y : Nat} :
    y ∈ succs deps x ↔ (x, y) ∈ deps := by
  simp only [succs, List.mem_map, List.mem_filter, decide_eq_true_eq]
  constructor
  · rintro ⟨⟨a, b⟩, ⟨hmem, hfst⟩, hsnd⟩
    simp only at hfst hsnd
    subst hfst
    subst hsnd
    exact hmem
  · intro h
    exact ⟨(x, y), ⟨h, rfl⟩, rfl⟩

/-- Concatenation of walks. -/
theorem Walk.append {deps : List (Nat × Nat)} {a b c m n : Nat}
    (h1 : Walk deps a b m) (h2 : Walk deps b c n) : Walk deps a c (m + n) := by
  induction h1 with
  | nil x => simpa using h2
  | cons e _ ih =>
    have h := Walk.cons e (ih h2)
    have heq : ∀ k : Nat, k + n + 1 = k + 1 + n := fun k => by omega
    exact heq _ ▸ h

/-- A zero-length walk stays put. -/
theorem Walk.eq_of_zero {deps : List (Nat × Nat)} {x y : Nat}
    (h : Walk deps x y 0) : x = y := by
  cases h
  rfl

/-- Inversion of a nonempty walk into its first edge and its tail. -/
theorem Walk.succ_inv {deps : List (Nat × Nat)} {x z n : Nat}
    (h : Walk deps x z (n + 1)) : ∃ y, (x, y) ∈ deps ∧ Walk deps y z n := by
  cases h with
  | cons e w => exact ⟨_, e, w⟩

/-- A walk over a smaller edge list is a walk over a larger one. -/
theorem Walk.mono {d1 d2 : List (Nat × Nat)} (hsub : ∀ e ∈ d1, e ∈ d2)
    {x y n : Nat} (h : Walk d1 x y n) : Walk d2 x y n := by
  induction h with
  | nil x => exact Walk.nil x
  | cons e _ ih => exact Walk.cons (hsub _ e) ih

/-- The bounded reachability check of the trigger is exactly the
existence of a walk of length between 1 and the fuel. -/
theorem reachableWithin_iff_walk {deps : List (Nat × Nat)} {target : Nat} :
    ∀ {fuel x : Nat},
      reachableWithin deps x target fuel = true ↔
        ∃ k, 1 ≤ k ∧ k ≤ fuel ∧ Walk deps x target k := by
  intro fuel
  induction fuel with
  | zero =>
    intro x
    simp only [reachableWithin]
    constructor
    · intro h
      exact absurd h (by simp)
    · rintro ⟨k, h1, h2, _⟩
      omega
  | succ n ih =>
    intro x
    simp only [reachableWithin, List.any_eq_true, Bool.or_eq_true, decide_eq_true_eq]
    constructor
    · rintro ⟨y, hy, hcase⟩
      have hedge : (x, y) ∈ deps := mem_succs.1 hy
      rcases hcase with h | h
      · subst h
        exact ⟨1, le_refl 1, by omega, Walk.cons hedge (Walk.nil _)⟩
      · rcases ih.1 h with ⟨k, hk1, hk2, w⟩
        exact ⟨k + 1, by omega, by omega, Walk.cons hedge w⟩
    · rintro ⟨k, hk1, hk2, w⟩
      rcases k with _ | k0
      · omega
      · rcases Walk.succ_inv w with ⟨y, hedge, w'⟩
        refine ⟨y, mem_succs.2 hedge, ?_⟩
        rcases Nat.eq_zero_or_pos k0 with hz | hpos
        · subst hz
          exact Or.inl (Walk.eq_of_zero w')
        · exact Or.inr (ih.2 ⟨k0, hpos, by omega, w'⟩)

/-- Decomposition of a walk over `(u, v) :: deps`: either it avoids the
new edge, or the segment after its last use and the segment before its
first use are walks over `deps` whose lengths together undercut the walk
by at least one edge. -/
theorem walk_cons_split {u v : Nat} {deps : List (Nat × Nat)} :
    ∀ {a b n : Nat}, Walk ((u, v) :: deps) a b n →
      Walk deps a b n ∨
        ∃ p q, p + q + 1 ≤ n ∧ Walk deps v b p ∧ Walk deps a u q := by
  intro a b n h
  induction h with
  | nil x => exact Or.inl (Walk.nil x)
  | cons e w ih =>
    rename_i x1 y1 z1 n1
    rcases List.mem_cons.1 e with he | he
    · injection he with hx hy
      subst hx
      subst hy
      rcases ih with hw | ⟨p, q, hpq, wv, _⟩
      · exact Or.inr ⟨n1, 0, by omega, hw, Walk.nil x1⟩
      · exact Or.inr ⟨p, 0, by omega, wv, Walk.nil x1⟩
    · rcases ih with hw | ⟨p, q, hpq, wv, wu⟩
      · exact Or.inl (Walk.cons he hw)
      · exact Or.inr ⟨p, q + 1, by omega, wv, Walk.cons he wu⟩

/-- Edges of the straight chain. -/
theorem chainDeps_mem {n a b : Nat} :
    (a, b) ∈ chainDeps n ↔ 1 ≤ a ∧ a ≤ n ∧ b = a + 1 := by
  simp only [chainDeps, List.mem_map, List.mem_range]
  constructor
  · rintro ⟨i, hi, hp⟩
    injection hp with h1 h2
    omega
  · rintro ⟨h1, h2, h3⟩
    refine ⟨a - 1, by omega, ?_⟩
    simp only [Prod.mk.injEq]
    omega

/-- Reachability along the straight chain is an interval condition. -/
theorem reachable_chainDeps {n : Nat} :
    ∀ (fuel x t : Nat),
      reachableWithin (chainDeps n) x t fuel = true ↔
        1 ≤ x ∧ x < t ∧ t ≤ x + fuel ∧ t ≤ n + 1 := by
  intro fuel
  induction fuel with
  | zero =>
    intro x t
    simp only [reachableWithin]
    constructor
    · intro h
      simp at h
    · rintro ⟨-, h2, h3, -⟩
      omega
  | succ f ih =>
    intro x t
    simp only [reachableWithin, List.any_eq_true, Bool.or_eq_true, decide_eq_true_eq]
    constructor
    · rintro ⟨y, hy, hcase⟩
      have hedge := chainDeps_mem.1 (mem_succs.1 hy)
      rcases hcase with h | h
      · omega
      · have := (ih y t).1 h
        omega
    · rintro ⟨h1, h2, h3, h4⟩
      refine ⟨x + 1, mem_succs.2 (chainDeps_mem.2 ⟨h1, by omega, rfl⟩), ?_⟩
      by_cases ht : t = x + 1
      · exact Or.inl ht.symm
      · exact Or.inr ((ih (x + 1) t).2 (by omega))

/-- The straight chain carries a walk from any node forward by any
in-range distance. -/
theorem walk_chain {n : Nat} :
    ∀ (k x : Nat), 1 ≤ x → x + k ≤ n + 1 → Walk (chainDeps n) x (x + k) k := by
  intro k
  induction k with
  | zero =>
    intro x _ _
    simpa using Walk.nil x
  | succ k0 ih =>
    intro x h1 h2
    have he : (x, x + 1) ∈ chainDeps n := chainDeps_mem.2 ⟨h1, by omega, rfl⟩
    have w := ih (x + 1) (by omega) (by omega)
    have heq : x + 1 + k0 = x + (k0 + 1) := by omega
    exact heq ▸ Walk.cons he w

/-- Inversion of a successful dependency insert: none of the guards
fired, and exactly the new edge was added. -/
theorem createDependency_ok_inv {s : Store} {u v : Nat} {s' : Store}
    (h : createDependency s u v = Except.ok s') :
    u ≠ v ∧ reachableWithin s.deps v u 500 = false ∧
      s' = { s with deps := (u, v) :: s.deps } := by
  unfold createDependency at h
  split_ifs at h with h1 h2 h3 h4 h5
  injection h with h6
  have h5' : reachableWithin s.deps v u 500 = false := by
    revert h5
    cases reachableWithin s.deps v u 500 <;> simp
  exact ⟨h1, h5', h6.symm⟩

/-! ## Claim C2 -/

/-- C2 (amended): a successful dependency insert adds exactly the new
edge, and preserves the absence of cycles of length at most 501 — the
guarantee the depth-500 bounded reachability walk of
`prevent_circular_dependencies` actually provides; cycles whose closing
back-walk is longer than 500 edges are not detected. -/
theorem createDependency_noShortCycle {s : Store} {u v : Nat} {s' : Store}
    (hok : createDependency s u v = Except.ok s') (hns : noShortCycle s.deps) :
    noShortCycle s'.deps ∧ s'.deps = (u, v) :: s.deps := by
  obtain ⟨huv, hreach, hs'⟩ := createDependency_ok_inv hok
  subst hs'
  refine ⟨?_, rfl⟩
  intro x
  cases hr : reachableWithin ((u, v) :: s.deps) x x 501 with
  | false => rfl
  | true =>
    exfalso
    rcases reachableWithin_iff_walk.1 hr with ⟨k, hk1, hk2, w⟩
    rcases walk_cons_split w with hw | ⟨p, q, hpq, wv, wu⟩
    · have hx : reachableWithin s.deps x x 501 = true :=
        reachableWithin_iff_walk.2 ⟨k, hk1, hk2, hw⟩
      rw [hns x] at hx
      cases hx
    · rcases Nat.eq_zero_or_pos (p + q) with hz | hpos
      · have hp : p = 0 := by omega
        have hq : q = 0 := by omega
        subst hp
        subst hq
        exact huv ((Walk.eq_of_zero wu) ▸ (Walk.eq_of_zero wv)).symm
      · have hvu : reachableWithin s.deps v u 500 = true :=
          reachableWithin_iff_walk.2 ⟨p + q, hpos, by omega, wv.append wu⟩

        rw [hreach] at hvu
        cases hvu

/-- C2 witness: inserting (1, 2) into the edge-free two-task store
succeeds and the short-cycle-free invariant carries over. -/
theorem createDependency_noShortCycle_witness :
    noShortCycle wStore2.deps ∧ wStore2.deps = (1, 2) :: wStore.deps := by
  have hr0 : reachableWithin wStore.deps 2 1 500 = false := reachableWithin_nil 2 1 500
  have h1 : createDependency wStore 1 2 = Except.ok wStore2 := by
    unfold createDependency
    rw [if_neg (by omega), if_pos (by decide), if_pos (by decide), if_neg (by decide),
      if_neg (by simp [hr0])]
    rfl
  have h2 : noShortCycle wStore.deps := fun x => reachableWithin_nil x x 501
  exact createDependency_noShortCycle h1 h2

/-- C2 counterexample: over a 501-edge chain there is already a walk from
task 1 back to task 502, yet inserting the edge (502, 1) is accepted —
the bounded walk stops at depth 500 — and the resulting edge set contains
a cycle through task 1. -/
theorem createDependency_longCycle :
    reachableWithin chainStore.deps 1 502 501 = true ∧
    createDependency chainStore 502 1 = Except.ok chainStore2 ∧
    reachableWithin chainStore2.deps 1 1 502 = true := by
  have hdeps : chainStore.deps = chainDeps 501 := rfl
  refine ⟨?_, ?_, ?_⟩
  · rw [hdeps]
    exact (reachable_chainDeps 501 1 502).2 (by omega)
  · have hA : chainStore.tasks.any (fun t => t.id = 502) = true := by
      simp only [chainStore, List.any_eq_true, List.mem_map, List.mem_range,
        decide_eq_true_eq]
      exact ⟨chainTask 502, ⟨501, by omega, rfl⟩, rfl⟩
    have hB : chainStore.tasks.any (fun t => t.id = 1) = true := by
      simp only [chainStore, List.any_eq_true, List.mem_map, List.mem_range,
        decide_eq_true_eq]
      exact ⟨chainTask 1, ⟨0, by omega, rfl⟩, rfl⟩
    have hC : ¬((502, 1) ∈ chainStore.deps) := by
      rw [hdeps]
      intro hmem
      have := chainDeps_mem.1 hmem
      omega
    have hD : reachableWithin chainStore.deps 1 502 500 = false := by
      cases hr : reachableWithin chainStore.deps 1 502 500 with
      | false => rfl
      | true =>
        exfalso
        rw [hdeps] at hr
        have := (reachable_chainDeps 500 1 502).1 hr
        omega
    unfold createDependency
    rw [if_neg (by omega), if_pos hA, if_pos hB, if_neg hC, if_neg (by rw [hD]; simp)]
    rfl
  · have w1 : Walk (chainDeps 501) 1 502 501 := by
      have := walk_chain (n := 501) 501 1 (by omega) (by omega)
      simpa using this
    have w1' : Walk chainStore2.deps 1 502 501 :=
      w1.mono (fun e he => List.mem_cons_of_mem _ he)
    have w2 : Walk chainStore2.deps 502 1 1 :=
      Walk.cons (List.mem_cons_self _ _) (Walk.nil 1)
    have w : Walk chainStore2.deps 1 1 502 := w1'.append w2
    exact reachableWithin_iff_walk.2 ⟨502, by omega, by omega, w⟩

/-! ## Lemmas about task lookup and row updates -/

/-- Lookup after an id-targeted update: when the update preserves ids,
the looked-up row is the updated one exactly for the targeted id. -/
theorem findTask_mapUpdate (tasks : List TaskRow) (tid : Nat) (g : TaskRow → TaskRow)
    (hg : ∀ t, (g t).id = t.id) (id : Nat) :
    (mapUpdate tasks tid g).find? (fun t => t.id = id) =
      if tid = id then (tasks.find? (fun t => t.id = id)).map g
      else tasks.find? (fun t => t.id = id) := by
  induction tasks with
  | nil =>
    simp only [mapUpdate, List.map_nil, List.find?_nil, Option.map_none]
    split <;> rfl
  | cons t ts ih =>
    simp only [mapUpdate, List.map_cons] at ih ⊢
    by_cases h1 : t.id = tid
    · rw [if_pos h1]
      by_cases h2 : t.id = id
      · have htid : tid = id := by omega
        rw [if_pos htid]
        rw [List.find?_cons_of_pos _ (by simp [hg, h2]),
          List.find?_cons_of_pos _ (by simp [h2])]
        rfl
      · have htid : ¬ tid = id := by omega
        rw [if_neg htid]
        rw [List.find?_cons_of_neg _ (by simp [hg, h2]),
          List.find?_cons_of_neg _ (by simp [h2])]
        have := ih
        rw [if_neg htid] at this
        exact this
    · rw [if_neg h1]
      by_cases h2 : t.id = id
      · have htid : ¬ tid = id := by omega
        rw [if_neg htid]
        rw [List.find?_cons_of_pos _ (by simp [h2]),
          List.find?_cons_of_pos _ (by simp [h2])]
      · rw [List.find?_cons_of_neg _ (by simp [h2])]
        by_cases htid : tid = id
        · rw [if_pos htid]
          rw [List.find?_cons_of_neg _ (by simp [h2])]
          have := ih
          rw [if_pos htid] at this
          exact this
        · rw [if_neg htid]
          rw [List.find?_cons_of_neg _ (by simp [h2])]
          have := ih
          rw [if_neg htid] at this
          exact this

/-- With pairwise distinct ids, looking a member row up by its own id
returns that row. -/
theorem findTask_of_mem_nodup {l : List TaskRow} {t : TaskRow}
    (hnd : (l.map (fun u => u.id)).Nodup) (hmem : t ∈ l) :
    l.find? (fun u => u.id = t.id) = some t := by
  induction l with
  | nil => cases hmem
  | cons a l ih =>
    rcases List.mem_cons.1 hmem with rfl | hmem'
    · rw [List.find?_cons_of_pos _ (by simp)]
    · simp only [List.map_cons, List.nodup_cons] at hnd
      by_cases hid : a.id = t.id
      · exfalso
        exact hnd.1 (hid ▸ List.mem_map.2 ⟨t, hmem', rfl⟩)
      · rw [List.find?_cons_of_neg _ (by simp [hid])]
        exact ih hnd.2 hmem'

/-- The row CHECK constraints spelled out as propositions. -/
theorem rowCheckOk_eq_true {t : TaskRow} :
    rowCheckOk t = true ↔
      (0 ≤ t.priority ∧ t.priority ≤ 10) ∧
        ¬(t.status = TaskStatus.completed ∧ t.completionSummary = none) := by
  simp only [rowCheckOk, Bool.and_eq_true, Bool.or_eq_true, decide_eq_true_eq,
    Option.isSome_iff_ne_none]
  tauto

/-- Inversion of a successful status update. -/
theorem updateTaskStatus_ok_inv {s : Store} {id : Nat} {dst : TaskStatus}
    {summary : Option String} {now : Int} {s' : Store}
    (h : updateTaskStatus s id dst summary now = Except.ok s') :
    ∃ t, findTask s id = some t ∧ validateStatusTransition t.status dst = true ∧
      rowCheckOk { t with status := dst, completionSummary := summary } = true ∧
      s' = { s with
        tasks := mapUpdate s.tasks id (fun u => applyStatusUpdate u dst summary now) } := by
  unfold updateTaskStatus at h
  cases hfind : findTask s id with
  | none =>
    rw [hfind] at h
    exact Except.noConfusion h
  | some t =>
    rw [hfind] at h
    dsimp only at h
    split_ifs at h with h1 h2
    injection h with h3
    exact ⟨t, rfl, h1, h2, h3.symm⟩

/-- The started_at column after one status-update row effect. -/
theorem applyStatusUpdate_startedAt (t : TaskRow) (dst : TaskStatus)
    (summary : Option String) (now : Int) :
    (applyStatusUpdate t dst summary now).startedAt =
      if dst = TaskStatus.inProgress ∧ t.status ≠ TaskStatus.inProgress then some now
      else t.startedAt := by
  unfold applyStatusUpdate
  split_ifs <;> rfl

/-- A same-status row effect only rewrites the summary and updated_at. -/
theorem applyStatusUpdate_same (t : TaskRow) (summary : Option String) (now : Int) :
    applyStatusUpdate t t.status summary now =
      { t with completionSummary := summary, updatedAt := now } := by
  unfold applyStatusUpdate
  dsimp only
  rw [if_neg (fun h => h.2 h.1), if_neg (fun h => h.2 h.1)]

/-- The row effect of a status update never changes the id. -/
theorem applyStatusUpdate_id (t : TaskRow) (dst : TaskStatus) (summary : Option String)
    (now : Int) : (applyStatusUpdate t dst summary now).id = t.id := by
  unfold applyStatusUpdate
  dsimp only
  split_ifs <;> rfl

/-! ## Claim C3 -/

/-- C3: on an existing task (whose stored row satisfies the table's
priority bound, as every inserted row does), `UpdateTaskStatus` succeeds
exactly when the transition machine allows the move and not when the new
status is completed with a null summary; in every other case it returns
an error, and the pure model keeps the store unchanged. -/
theorem updateTaskStatus_success_iff (s : Store) (id : Nat) (dst : TaskStatus)
    (summary : Option String) (now : Int) (t : TaskRow)
    (hfind : findTask s id = some t) (hpr : 0 ≤ t.priority ∧ t.priority ≤ 10) :
    (∃ s', updateTaskStatus s id dst summary now = Except.ok s') ↔
      validateStatusTransition t.status dst = true ∧
        ¬(dst = TaskStatus.completed ∧ summary = none) := by
  constructor
  · rintro ⟨s', hok⟩
    obtain ⟨t', hfind', hval, hcheck, -⟩ := updateTaskStatus_ok_inv hok
    rw [hfind] at hfind'
    injection hfind' with ht
    subst ht
    have hc := (rowCheckOk_eq_true.1 hcheck).2
    exact ⟨hval, hc⟩
  · rintro ⟨hval, hc⟩
    refine ⟨{ s with
      tasks := mapUpdate s.tasks id (fun u => applyStatusUpdate u dst summary now) }, ?_⟩
    unfold updateTaskStatus
    rw [hfind]
    dsimp only
    rw [if_pos hval,
      if_pos ((@rowCheckOk_eq_true
        { t with status := dst, completionSummary := summary }).2 ⟨hpr, hc⟩)]

/-- C3 witness: blocking the pending task of the summary-carrying store
is allowed, and the characterization evaluates accordingly. -/
theorem updateTaskStatus_success_iff_witness :
    (∃ s', updateTaskStatus c5Store 1 TaskStatus.blocked none 3 = Except.ok s') ↔
      validateStatusTransition c5Row.status TaskStatus.blocked = true ∧
        ¬(TaskStatus.blocked = TaskStatus.completed ∧ (none : Option String) = none) :=
  updateTaskStatus_success_iff c5Store 1 TaskStatus.blocked none 3 c5Row rfl
    (by decide)

/-! ## Claim C4 -/

/-- C4 (amended): on every successful `UpdateTaskStatus`, the updated
row's started_at is re-assigned to the transition time exactly when the
move enters in_progress from a different status — the trigger fires on
every such entry, not only the first — and keeps its previous value
otherwise; no transition clears it. -/
theorem updateTaskStatus_startedAt (s : Store) (id : Nat) (dst : TaskStatus)
    (summary : Option String) (now : Int) (s' : Store) (t : TaskRow)
    (hok : updateTaskStatus s id dst summary now = Except.ok s')
    (hfind : findTask s id = some t) :
    ∃ u, findTask s' id = some u ∧
      u.startedAt =
        (if dst = TaskStatus.inProgress ∧ t.status ≠ TaskStatus.inProgress then some now
         else t.startedAt) := by
  obtain ⟨t', hfind', -, -, hs'⟩ := updateTaskStatus_ok_inv hok
  rw [hfind] at hfind'
  injection hfind' with ht
  subst ht
  subst hs'
  have hmap := findTask_mapUpdate s.tasks id
    (fun u => applyStatusUpdate u dst summary now)
    (fun u => applyStatusUpdate_id u dst summary now) id
  rw [if_pos rfl] at hmap
  refine ⟨applyStatusUpdate t dst summary now, ?_,
    applyStatusUpdate_startedAt t dst summary now⟩
  show (mapUpdate s.tasks id _).find? _ = _
  rw [hmap]
  unfold findTask at hfind
  rw [hfind]
  rfl

/-- C4 counterexample: re-opening the completed task (started_at = 5) to
in_progress at time 10 succeeds but re-sets started_at to 10, refuting
that started_at is assigned only on the first entry and never changed. -/
theorem updateTaskStatus_startedAt_reset :
    updateTaskStatus c4Store 1 TaskStatus.inProgress none 10 = Except.ok c4Store2 ∧
    (findTask c4Store 1).map (fun t => t.startedAt) = some (some 5) ∧
    (findTask c4Store2 1).map (fun t => t.startedAt) = some (some 10) :=
  ⟨rfl, rfl, rfl⟩

/-- C4 witness: the amended started_at rule instantiated on the re-opened
completed task. -/
theorem updateTaskStatus_startedAt_witness :
    ∃ u, findTask c4Store2 1 = some u ∧
      u.startedAt =
        (if TaskStatus.inProgress = TaskStatus.inProgress ∧
            c4Row.status ≠ TaskStatus.inProgress then some (10 : Int)
         else c4Row.startedAt) :=
  updateTaskStatus_startedAt c4Store 1 TaskStatus.inProgress none 10 c4Store2 c4Row
    rfl rfl

/-! ## Claim C5 -/

/-- C5 (amended): a same-status `UpdateTaskStatus` on an existing task
succeeds (unless the status is completed and the summary null, which the
CHECK constraint rejects), but it is not a full no-op: the UPDATE still
runs, overwriting completion_summary with the given summary and
refreshing updated_at, while every other field of the task, and every
other task, is unchanged. -/
theorem updateTaskStatus_same_status (s : Store) (id : Nat) (summary : Option String)
    (now : Int) (t : TaskRow) (hfind : findTask s id = some t)
    (hpr : 0 ≤ t.priority ∧ t.priority ≤ 10)
    (hc : ¬(t.status = TaskStatus.completed ∧ summary = none)) :
    ∃ s', updateTaskStatus s id t.status summary now = Except.ok s' ∧
      findTask s' id = some { t with completionSummary := summary, updatedAt := now } ∧
      s'.deps = s.deps ∧ s'.features = s.features ∧
      ∀ u ∈ s.tasks, u.id ≠ id → u ∈ s'.tasks := by
  refine ⟨{ s with
      tasks := mapUpdate s.tasks id (fun u => applyStatusUpdate u t.status summary now) },
    ?_, ?_, rfl, rfl, ?_⟩
  · unfold updateTaskStatus
    rw [hfind]
    dsimp only
    rw [if_pos (by simp [validateStatusTransition]),
      if_pos ((@rowCheckOk_eq_true
        { t with status := t.status, completionSummary := summary }).2 ⟨hpr, hc⟩)]
  · have hmap := findTask_mapUpdate s.tasks id
      (fun u => applyStatusUpdate u t.status summary now)
      (fun u => applyStatusUpdate_id u t.status summary now) id
    rw [if_pos rfl] at hmap
    show (mapUpdate s.tasks id _).find? _ = _
    rw [hmap]
    unfold findTask at hfind
    rw [hfind]
    simp [applyStatusUpdate_same]
  · intro u hu hne
    exact List.mem_map.2 ⟨u, hu, by rw [if_neg hne]⟩

/-- C5 witness: a same-status update with a fresh summary on the
summary-carrying pending task. -/
theorem updateTaskStatus_same_status_witness :
    ∃ s', updateTaskStatus c5Store 1 c5Row.status (some "y") 9 = Except.ok s' ∧
      findTask s' 1 = some { c5Row with completionSummary := some "y", updatedAt := 9 } ∧
      s'.deps = c5Store.deps ∧ s'.features = c5Store.features ∧
      ∀ u ∈ c5Store.tasks, u.id ≠ 1 → u ∈ s'.tasks :=
  updateTaskStatus_same_status c5Store 1 (some "y") 9 c5Row rfl (by decide) (by decide)

/-- C5 counterexample: the same-status update `pending → pending` with a
null summary succeeds but clears the stored completion_summary and bumps
updated_at, so it is not a no-op on every field. -/
theorem updateTaskStatus_same_status_changes :
    updateTaskStatus c5Store 1 TaskStatus.pending none 7 = Except.ok c5Store2 ∧
    (findTask c5Store 1).map (fun t => t.completionSummary) = some (some "x") ∧
    (findTask c5Store2 1).map (fun t => t.completionSummary) = some none ∧
    (findTask c5Store 1).map (fun t => t.updatedAt) = some 0 ∧
    (findTask c5Store2 1).map (fun t => t.updatedAt) = some 7 :=
  ⟨rfl, rfl, rfl, rfl, rfl⟩

/-! ## Claim C7 -/

/-- C7: after `ResetInProgressTasks`, no task is in_progress; every task
that was in_progress is now pending with updated_at refreshed, every
other task is untouched, started_at (and every field other than status
and updated_at) is preserved for all tasks, and features and dependencies
are untouched. -/
theorem resetInProgressTasks_spec (s : Store) (now : Int) :
    (resetInProgressTasks s now).deps = s.deps ∧
    (resetInProgressTasks s now).features = s.features ∧
    (resetInProgressTasks s now).tasks =
      s.tasks.map (fun t =>
        if t.status = TaskStatus.inProgress then
          { t with status := TaskStatus.pending, updatedAt := now }
        else t) ∧
    (∀ t ∈ (resetInProgressTasks s now).tasks, t.status ≠ TaskStatus.inProgress) ∧
    (resetInProgressTasks s now).tasks.map (fun t => t.startedAt) =
      s.tasks.map (fun t => t.startedAt) ∧
    ∀ t ∈ s.tasks, t.status ≠ TaskStatus.inProgress →
      t ∈ (resetInProgressTasks s now).tasks := by
  refine ⟨rfl, rfl, rfl, ?_, ?_, ?_⟩
  · intro t ht
    rcases List.mem_map.1 ht with ⟨u, -, hu⟩
    subst hu
    split_ifs with h
    · simp
    · simpa using h
  · show (s.tasks.map _).map _ = _
    rw [List.map_map]
    congr 1
    funext t
    by_cases h : t.status = TaskStatus.inProgress <;> simp [h]
  · intro t ht hs
    exact List.mem_map.2 ⟨t, ht, by rw [if_neg hs]⟩

/-! ## Ordering and selection lemmas for the claim query -/

/-- The reflexive comparison as a proposition. -/
theorem orderedNotAfter_iff {a b : TaskRow} :
    orderedNotAfter a b = true ↔
      b.priority < a.priority ∨ (a.priority = b.priority ∧ a.createdAt ≤ b.createdAt) := by
  simp [orderedNotAfter]

/-- The strict comparison as a proposition. -/
theorem orderedBefore_iff {a b : TaskRow} :
    orderedBefore a b = true ↔
      b.priority < a.priority ∨ (a.priority = b.priority ∧ a.createdAt < b.createdAt) := by
  simp [orderedBefore]

theorem orderedNotAfter_refl (a : TaskRow) : orderedNotAfter a a = true := by
  rw [orderedNotAfter_iff]
  omega

theorem orderedNotAfter_of_not_before {a b : TaskRow}
    (h : ¬ orderedBefore a b = true) : orderedNotAfter b a = true := by
  rw [orderedBefore_iff] at h
  rw [orderedNotAfter_iff]
  omega

theorem orderedNotAfter_trans {a b c : TaskRow} (h1 : orderedNotAfter a b = true)
    (h2 : orderedNotAfter b c = true) : orderedNotAfter a c = true := by
  rw [orderedNotAfter_iff] at h1 h2 ⊢
  omega

theorem orderedNotAfter_before_trans {a b c : TaskRow}
    (h1 : orderedNotAfter a b = true) (h2 : orderedBefore b c = true) :
    orderedNotAfter a c = true := by
  rw [orderedNotAfter_iff] at h1 ⊢
  rw [orderedBefore_iff] at h2
  omega

/-- The folded selection is a lower bound for everything it saw. -/
theorem foldl_chooseEarlier_spec :
    ∀ (l : List TaskRow) (acc : Option TaskRow) (t : TaskRow),
      l.foldl chooseEarlier acc = some t →
        (∀ b, acc = some b → orderedNotAfter t b = true) ∧
          ∀ u ∈ l, orderedNotAfter t u = true := by
  intro l
  induction l with
  | nil =>
    intro acc t h
    refine ⟨?_, by simp⟩
    intro b hb
    rw [hb] at h
    injection h with h1
    rw [← h1]
    exact orderedNotAfter_refl b
  | cons u l ih =>
    intro acc t h
    rw [List.foldl_cons] at h
    obtain ⟨ih1, ih2⟩ := ih (chooseEarlier acc u) t h
    cases acc with
    | none =>
      have hu : orderedNotAfter t u = true := ih1 u rfl
      refine ⟨fun b hb => Option.noConfusion hb, ?_⟩
      intro w hw
      rcases List.mem_cons.1 hw with rfl | hw'
      · exact hu
      · exact ih2 w hw'
    | some b0 =>
      by_cases hb : orderedBefore u b0 = true
      · have hstep : chooseEarlier (some b0) u = some u := by
          simp only [chooseEarlier]
          rw [if_pos hb]
        rw [hstep] at ih1
        have hu : orderedNotAfter t u = true := ih1 u rfl
        refine ⟨?_, ?_⟩
        · intro b hbeq
          injection hbeq with hbeq
          subst hbeq
          exact orderedNotAfter_before_trans hu hb
        · intro w hw
          rcases List.mem_cons.1 hw with rfl | hw'
          · exact hu
          · exact ih2 w hw'
      · have hstep : chooseEarlier (some b0) u = some b0 := by
          simp only [chooseEarlier]
          rw [if_neg hb]
        rw [hstep] at ih1
        have hb0 : orderedNotAfter t b0 = true := ih1 b0 rfl
        refine ⟨?_, ?_⟩
        · intro b hbeq
          injection hbeq with hbeq
          subst hbeq
          exact hb0
        · intro w hw
          rcases List.mem_cons.1 hw with rfl | hw'
          · exact orderedNotAfter_trans hb0 (orderedNotAfter_of_not_before hb)
          · exact ih2 w hw'

/-- The selected row bounds every listed row in the ordering. -/
theorem selectFirstOrdered_minimal {l : List TaskRow} {t : TaskRow}
    (h : selectFirstOrdered l = some t) : ∀ u ∈ l, orderedNotAfter t u = true :=
  (foldl_chooseEarlier_spec l none t h).2

/-- The selected row is listed. -/
theorem selectFirstOrdered_mem :
    ∀ {l : List TaskRow} {t : TaskRow}, selectFirstOrdered l = some t → t ∈ l := by
  have haux : ∀ (l : List TaskRow) (acc : Option TaskRow) (t : TaskRow),
      l.foldl chooseEarlier acc = some t → acc = some t ∨ t ∈ l := by
    intro l
    induction l with
    | nil =>
      intro acc t h
      exact Or.inl h
    | cons u l ih =>
      intro acc t h
      rw [List.foldl_cons] at h
      rcases ih (chooseEarlier acc u) t h with hacc | hmem
      · cases acc with
        | none =>
          injection hacc with hacc
          exact Or.inr (hacc ▸ List.mem_cons_self u l)
        | some b0 =>
          simp only [chooseEarlier] at hacc
          split_ifs at hacc
          · injection hacc with hacc
            exact Or.inr (hacc ▸ List.mem_cons_self u l)
          · exact Or.inl hacc
      · exact Or.inr (List.mem_cons_of_mem u hmem)
  intro l t h
  rcases haux l none t h with hacc | hmem
  · exact Option.noConfusion hacc
  · exact hmem

/-- The selection is empty exactly on the empty list. -/
theorem selectFirstOrdered_eq_none {l : List TaskRow} :
    selectFirstOrdered l = none ↔ l = [] := by
  have haux : ∀ (l' : List TaskRow) (b : TaskRow),
      l'.foldl chooseEarlier (some b) ≠ none := by
    intro l'
    induction l' with
    | nil =>
      intro b h
      exact Option.noConfusion h
    | cons u l' ih =>
      intro b
      rw [List.foldl_cons]
      simp only [chooseEarlier]
      split_ifs
      · exact ih u
      · exact ih b
  constructor
  · intro h
    cases l with
    | nil => rfl
    | cons u l =>
      exfalso
      unfold selectFirstOrdered at h
      rw [List.foldl_cons] at h
      exact haux l u h
  · intro h
    subst h
    rfl

/-- The row effect of the claiming UPDATE never changes the id. -/
theorem claimUpdate_id (t : TaskRow) (now : Int) : (claimUpdate t now).id = t.id := by
  unfold claimUpdate
  dsimp only
  split_ifs <;> rfl

/-- The claiming UPDATE always lands the row in in_progress. -/
theorem claimUpdate_status (t : TaskRow) (now : Int) :
    (claimUpdate t now).status = TaskStatus.inProgress := by
  unfold claimUpdate
  dsimp only
  split_ifs <;> rfl

/-- The claim trigger sets started_at whenever the old status was not
in_progress. -/
theorem claimUpdate_startedAt (t : TaskRow) (now : Int)
    (h : t.status ≠ TaskStatus.inProgress) : (claimUpdate t now).startedAt = some now := by
  unfold claimUpdate
  dsimp only
  rw [if_pos h]

/-- Availability of a row spells out as pending status plus completed
prerequisites. -/
theorem isAvailable_iff {s : Store} {t : TaskRow} :
    isAvailable s t = true ↔
      t.status = TaskStatus.pending ∧
        ∀ d ∈ s.deps, d.1 = t.id →
          ∀ p ∈ s.tasks, p.id = d.2 → p.status = TaskStatus.completed := by
  simp only [isAvailable, Bool.and_eq_true, decide_eq_true_eq, Bool.not_eq_true',
    List.any_eq_false]
  constructor
  · rintro ⟨h1, h2⟩
    refine ⟨h1, ?_⟩
    intro d hd hd1 p hp hp2
    have hc := h2 d hd
    by_contra hps
    apply hc
    refine ⟨hd1, ?_⟩
    rw [List.any_eq_true]
    exact ⟨p, hp, by simp [hp2, hps]⟩
  · rintro ⟨h1, h2⟩
    refine ⟨h1, ?_⟩
    intro d hd
    rintro ⟨hd1, hany⟩
    rw [List.any_eq_true] at hany
    rcases hany with ⟨p, hp, hpp⟩
    simp only [Bool.and_eq_true, decide_eq_true_eq] at hpp
    exact hpp.2 (h2 d hd hd1 p hp hpp.1)

/-! ## Claim C1 -/

/-- C1: over a store with pairwise distinct task ids (the primary key
invariant), `ClaimNextTask` either returns `none` leaving the store
unchanged — exactly when no task is available — or returns a claimed row:
an available task minimal for (priority DESC, created_at ASC), now
in_progress with started_at set to the claim time, updated in place,
while every other task, the features and the edges are unchanged. -/
theorem claimNextTask_spec (s : Store) (now : Int)
    (hids : (s.tasks.map (fun t => t.id)).Nodup) :
    (∀ s1, claimNextTask s now = (none, s1) →
      s1 = s ∧ ∀ t ∈ s.tasks, isAvailable s t = false) ∧
    (∀ tr s1, claimNextTask s now = (some tr, s1) →
      ∃ t0, t0 ∈ s.tasks ∧ isAvailable s t0 = true ∧
        (∀ u ∈ s.tasks, isAvailable s u = true → orderedNotAfter t0 u = true) ∧
        tr = claimUpdate t0 now ∧
        tr.status = TaskStatus.inProgress ∧
        tr.startedAt = some now ∧
        findTask s1 tr.id = some tr ∧
        s1.deps = s.deps ∧ s1.features = s.features ∧
        (∀ u ∈ s.tasks, u.id ≠ t0.id → u ∈ s1.tasks)) := by
  constructor
  · intro s1 h
    unfold claimNextTask at h
    cases hsel : selectFirstOrdered (s.tasks.filter (isAvailable s)) with
    | none =>
      rw [hsel] at h
      injection h with h1 h2
      refine ⟨h2.symm, ?_⟩
      have hnil := selectFirstOrdered_eq_none.1 hsel
      intro t ht
      cases hav : isAvailable s t with
      | false => rfl
      | true =>
        exfalso
        have : t ∈ s.tasks.filter (isAvailable s) := List.mem_filter.2 ⟨ht, hav⟩
        rw [hnil] at this
        cases this
    | some t0 =>
      rw [hsel] at h
      injection h with h1 h2
      exact Option.noConfusion h1
  · intro tr s1 h
    unfold claimNextTask at h
    cases hsel : selectFirstOrdered (s.tasks.filter (isAvailable s)) with
    | none =>
      rw [hsel] at h
      injection h with h1 h2
      exact Option.noConfusion h1
    | some t0 =>
      rw [hsel] at h
      injection h with h1 h2
      injection h1 with h1
      subst h1
      subst h2
      have hmem0 := selectFirstOrdered_mem hsel
      have hmemT : t0 ∈ s.tasks := (List.mem_filter.1 hmem0).1
      have havail : isAvailable s t0 = true := (List.mem_filter.1 hmem0).2
      have hpend : t0.status = TaskStatus.pending := (isAvailable_iff.1 havail).1
      have hmap := findTask_mapUpdate s.tasks t0.id (fun u => claimUpdate u now)
        (fun u => claimUpdate_id u now) t0.id
      rw [if_pos rfl] at hmap
      refine ⟨t0, hmemT, havail, ?_, rfl, claimUpdate_status t0 now,
        claimUpdate_startedAt t0 now (by rw [hpend]; intro hx; cases hx), ?_, rfl, rfl, ?_⟩
      · intro u hu hav
        exact selectFirstOrdered_minimal hsel u (List.mem_filter.2 ⟨hu, hav⟩)
      · show (mapUpdate s.tasks t0.id _).find? _ = _
        rw [show (claimUpdate t0 now).id = t0.id from claimUpdate_id t0 now]
        rw [hmap, findTask_of_mem_nodup hids hmemT]
        rfl
      · intro u hu hne
        exact List.mem_map.2 ⟨u, hu, by rw [if_neg hne]⟩

/-- C1 witness: claiming from the two-task store at time 3 picks a
minimal available task and the characterization holds. -/
theorem claimNextTask_spec_witness :
    (∀ s1, claimNextTask wStore 3 = (none, s1) →
      s1 = wStore ∧ ∀ t ∈ wStore.tasks, isAvailable wStore t = false) ∧
    (∀ tr s1, claimNextTask wStore 3 = (some tr, s1) →
      ∃ t0, t0 ∈ wStore.tasks ∧ isAvailable wStore t0 = true ∧
        (∀ u ∈ wStore.tasks, isAvailable wStore u = true →
          orderedNotAfter t0 u = true) ∧
        tr = claimUpdate t0 3 ∧
        tr.status = TaskStatus.inProgress ∧
        tr.startedAt = some 3 ∧
        findTask s1 tr.id = some tr ∧
        s1.deps = wStore.deps ∧ s1.features = wStore.features ∧
        (∀ u ∈ wStore.tasks, u.id ≠ t0.id → u ∈ s1.tasks)) :=
  claimNextTask_spec wStore 3 (by decide)

/-! ## Lemmas about the model-list filter loop -/

/-- The filter loop keeps the accumulator duplicate-free. -/
theorem foldl_dedupeStep_nodup :
    ∀ (ms acc : List String), acc.Nodup → (ms.foldl dedupeStep acc).Nodup := by
  intro ms
  induction ms with
  | nil => exact fun acc h => h
  | cons m ms ih =>
    intro acc hacc
    rw [List.foldl_cons]
    apply ih
    unfold dedupeStep
    split_ifs with hskip
    · exact hacc
    · simp only [Bool.or_eq_true, decide_eq_true_eq] at hskip
      push_neg at hskip
      have hnot : m ∉ acc := fun hmem =>
        hskip.2 (by simpa using List.elem_iff.2 hmem)
      simp [List.nodup_append, hacc]
      exact hnot

/-- The filter loop never lets the empty string in. -/
theorem foldl_dedupeStep_not_empty :
    ∀ (ms acc : List String), "" ∉ acc → "" ∉ ms.foldl dedupeStep acc := by
  intro ms
  induction ms with
  | nil => exact fun acc h => h
  | cons m ms ih =>
    intro acc hacc
    rw [List.foldl_cons]
    apply ih
    unfold dedupeStep
    split_ifs with hskip
    · exact hacc
    · simp only [Bool.or_eq_true, decide_eq_true_eq] at hskip
      push_neg at hskip
      simp only [List.mem_append, List.mem_singleton]
      rintro (h | h)
      · exact hacc h
      · exact hskip.1 h.symm

/-! ## Claim C9 -/

/-- C9 (amended): after `SetAvailableModels`, the stored list contains the
current model and no empty strings (the current model is never empty: the
constructor defaults it and `SetModel` ignores empty input); it is free of
duplicates whenever the filter loop kept at least one entry — but when
the input filters down to nothing the list becomes the current model
twice, because the emptiness fallback re-seeds `filtered` without
updating `seen`. -/
theorem setAvailableModels_spec (model : String) (ms : List String)
    (hm : model ≠ "") :
    model ∈ setAvailableModels model ms ∧
    "" ∉ setAvailableModels model ms ∧
    (ms.foldl dedupeStep [] ≠ [] → (setAvailableModels model ms).Nodup) := by
  unfold setAvailableModels
  dsimp only
  have hnd : (ms.foldl dedupeStep []).Nodup := foldl_dedupeStep_nodup ms [] (by simp)
  have hne : "" ∉ ms.foldl dedupeStep [] := foldl_dedupeStep_not_empty ms [] (by simp)
  by_cases hc : (ms.foldl dedupeStep []).contains model = true
  · rw [if_pos hc]
    have hmem : model ∈ ms.foldl dedupeStep [] := List.elem_iff.1 hc
    have hfne : ¬ (ms.foldl dedupeStep []).isEmpty = true := by
      rw [List.isEmpty_iff]
      intro hnil
      rw [hnil] at hmem
      cases hmem
    rw [if_neg hfne]
    exact ⟨hmem, hne, fun _ => hnd⟩
  · rw [if_neg hc]
    have hnotmem : model ∉ ms.foldl dedupeStep [] := fun hmem =>
      hc (List.elem_iff.2 hmem)
    by_cases hemp : (ms.foldl dedupeStep []).isEmpty = true
    · rw [if_pos hemp]
      rw [List.isEmpty_iff] at hemp
      refine ⟨by simp, ?_, fun hcontra => absurd hemp hcontra⟩
      simp only [List.mem_append, List.mem_singleton]
      rintro (h | h) <;> exact hm h.symm
    · rw [if_neg hemp]
      refine ⟨by simp, ?_, fun _ => ?_⟩
      · simp only [List.mem_append, List.mem_singleton]
        rintro (h | h)
        · exact hne h
        · exact hm h.symm
      · simp [List.nodup_append, hnd]
        exact hnotmem

/-- C9 witness: a mixed input with an empty string and a duplicate. -/
theorem setAvailableModels_spec_witness :
    "m" ∈ setAvailableModels "m" ["a", "", "a"] ∧
    "" ∉ setAvailableModels "m" ["a", "", "a"] ∧
    ((["a", "", "a"] : List String).foldl dedupeStep [] ≠ [] →
      (setAvailableModels "m" ["a", "", "a"]).Nodup) :=
  setAvailableModels_spec "m" ["a", "", "a"] (by decide)

/-- C9 counterexample: on an empty input list the stored list becomes the
current model twice, so it is not duplicate-free as claimed. -/
theorem setAvailableModels_empty_dup :
    setAvailableModels "m" [] = ["m", "m"] ∧
    ¬ (["m", "m"] : List String).Nodup := by
  refine ⟨rfl, ?_⟩
  simp

/-! ## Lemmas for the spawn pass -/

/-- The claiming row effect keeps the priority. -/
theorem claimUpdate_priority (t : TaskRow) (now : Int) :
    (claimUpdate t now).priority = t.priority := by
  unfold claimUpdate
  dsimp only
  split_ifs <;> rfl

/-- The status-update row effect keeps the priority. -/
theorem applyStatusUpdate_priority (t : TaskRow) (dst : TaskStatus)
    (summary : Option String) (now : Int) :
    (applyStatusUpdate t dst summary now).priority = t.priority := by
  unfold applyStatusUpdate
  dsimp only
  split_ifs <;> rfl

/-- The status-update row effect lands on the requested status. -/
theorem applyStatusUpdate_status (t : TaskRow) (dst : TaskStatus)
    (summary : Option String) (now : Int) :
    (applyStatusUpdate t dst summary now).status = dst := by
  unfold applyStatusUpdate
  dsimp only
  split_ifs <;> rfl

/-- An id-preserving targeted update keeps the id column of the table. -/
theorem mapUpdate_map_id (l : List TaskRow) (tid : Nat) (g : TaskRow → TaskRow)
    (hg : ∀ t, (g t).id = t.id) :
    (mapUpdate l tid g).map (fun t => t.id) = l.map (fun t => t.id) := by
  unfold mapUpdate
  rw [List.map_map]
  congr 1
  funext t
  show (if t.id = tid then g t else t).id = t.id
  split_ifs with h
  · exact hg t
  · rfl

/-- A priority-preserving targeted update keeps the priority bounds. -/
theorem mapUpdate_priority_bounds (l : List TaskRow) (tid : Nat)
    (g : TaskRow → TaskRow) (hg : ∀ t, (g t).priority = t.priority)
    (h : ∀ t ∈ l, 0 ≤ t.priority ∧ t.priority ≤ 10) :
    ∀ t ∈ mapUpdate l tid g, 0 ≤ t.priority ∧ t.priority ≤ 10 := by
  intro t ht
  rcases List.mem_map.1 ht with ⟨u, hu, hut⟩
  subst hut
  split_ifs with hi
  · rw [hg u]
    exact h u hu
  · exact h u hu

/-- `isTaskInBackoff` only looks at the failure map and duration. -/
theorem isTaskInBackoff_congr {o o' : OrchState} (hf : o'.failedTasks = o.failedTasks)
    (hb : o'.backoffDuration = o.backoffDuration) (now : Int) (id : Nat) :
    isTaskInBackoff o' now id = isTaskInBackoff o now id := by
  unfold isTaskInBackoff
  rw [hf, hb]

theorem spawnWorkerLocked_failedTasks (o : OrchState) (tid : Nat) :
    (spawnWorkerLocked o tid).failedTasks = o.failedTasks := by
  unfold spawnWorkerLocked
  cases lowestFreeWorkerId o <;> rfl

theorem spawnWorkerLocked_backoffDuration (o : OrchState) (tid : Nat) :
    (spawnWorkerLocked o tid).backoffDuration = o.backoffDuration := by
  unfold spawnWorkerLocked
  cases lowestFreeWorkerId o <;> rfl

/-- A spawn only ever adds a worker bound to the given task. -/
theorem spawnWorkerLocked_workers_mem (o : OrchState) (tid : Nat) :
    ∀ p ∈ (spawnWorkerLocked o tid).workers, p ∈ o.workers ∨ p.2 = tid := by
  unfold spawnWorkerLocked
  cases lowestFreeWorkerId o with
  | none => exact fun p hp => Or.inl hp
  | some w =>
    intro p hp
    simp only [List.mem_append, List.mem_singleton] at hp
    rcases hp with hp | hp
    · exact Or.inl hp
    · exact Or.inr (by rw [hp])

/-- A sufficient condition for a status update to go through, with its
exact result. -/
theorem updateTaskStatus_ok_of {s : Store} {id : Nat} {dst : TaskStatus}
    {summary : Option String} {now : Int} {t : TaskRow}
    (hfind : findTask s id = some t)
    (hval : validateStatusTransition t.status dst = true)
    (hcheck : rowCheckOk { t with status := dst, completionSummary := summary } = true) :
    updateTaskStatus s id dst summary now =
      Except.ok { s with
        tasks := mapUpdate s.tasks id (fun u => applyStatusUpdate u dst summary now) } := by
  unfold updateTaskStatus
  rw [hfind]
  dsimp only
  rw [if_pos hval, if_pos hcheck]

/-- Case analysis of one claim: either nothing is available and the store
is untouched, or some available row is claimed in place. -/
theorem claimNextTask_cases (s : Store) (now : Int) :
    claimNextTask s now = (none, s) ∨
      ∃ t0, t0 ∈ s.tasks.filter (isAvailable s) ∧
        claimNextTask s now = (some (claimUpdate t0 now),
          { s with tasks := mapUpdate s.tasks t0.id (fun t => claimUpdate t now) }) := by
  unfold claimNextTask
  cases hsel : selectFirstOrdered (s.tasks.filter (isAvailable s)) with
  | none => exact Or.inl rfl
  | some t0 => exact Or.inr ⟨t0, selectFirstOrdered_mem hsel, rfl⟩

/-- The spawn loop never dispatches a backoff task: every spawned id is
outside backoff, a backoff task that was pending is still pending when
the loop ends (each claim of it is immediately reverted), and every
worker present afterwards was either already registered or is bound to a
spawned task. -/
theorem spawnLoop_spec (now : Int) :
    ∀ (n : Nat) (o : OrchState) (s : Store),
      (s.tasks.map (fun t => t.id)).Nodup →
      (∀ t ∈ s.tasks, 0 ≤ t.priority ∧ t.priority ≤ 10) →
      (∀ id ∈ (spawnLoop now n o s).2.2, isTaskInBackoff o now id = false) ∧
      (∀ id, isTaskInBackoff o now id = true →
        (findTask s id).map (fun t => t.status) = some TaskStatus.pending →
        (findTask (spawnLoop now n o s).2.1 id).map (fun t => t.status) =
          some TaskStatus.pending) ∧
      (∀ p ∈ (spawnLoop now n o s).1.workers,
        p ∈ o.workers ∨ p.2 ∈ (spawnLoop now n o s).2.2) := by
  intro n
  induction n with
  | zero =>
    intro o s _ _
    exact ⟨fun id hid => absurd hid (List.not_mem_nil id), fun id _ h => h,
      fun p hp => Or.inl hp⟩
  | succ n ih =>
    intro o s hids hpr
    by_cases hcs : canSpawn o now = true
    · rcases claimNextTask_cases s now with hnone | ⟨t0, hmem0, heq⟩
      · have hred : spawnLoop now (n + 1) o s = (o, s, []) := by
          simp only [spawnLoop]
          rw [if_pos hcs, hnone]
        rw [hred]
        exact ⟨fun id hid => absurd hid (List.not_mem_nil id), fun id _ h => h,
          fun p hp => Or.inl hp⟩
      · have hmemT : t0 ∈ s.tasks := (List.mem_filter.1 hmem0).1
        have hids1 : (({ s with
            tasks := mapUpdate s.tasks t0.id (fun t => claimUpdate t now) } :
              Store).tasks.map (fun t => t.id)).Nodup := by
          show ((mapUpdate s.tasks t0.id _).map _).Nodup
          rw [mapUpdate_map_id _ _ _ (fun u => claimUpdate_id u now)]
          exact hids
        have hpr1 : ∀ t ∈ ({ s with
            tasks := mapUpdate s.tasks t0.id (fun t => claimUpdate t now) } :
              Store).tasks, 0 ≤ t.priority ∧ t.priority ≤ 10 :=
          mapUpdate_priority_bounds _ _ _ (fun u => claimUpdate_priority u now) hpr
        have hfind1 : findTask { s with
            tasks := mapUpdate s.tasks t0.id (fun t => claimUpdate t now) } t0.id =
              some (claimUpdate t0 now) := by
          show (mapUpdate s.tasks t0.id _).find? _ = _
          rw [findTask_mapUpdate _ _ _ (fun u => claimUpdate_id u now) t0.id,
            if_pos rfl, findTask_of_mem_nodup hids hmemT]
          rfl
        by_cases hbk : isTaskInBackoff o now (claimUpdate t0 now).id = true
        · have hprt0 := hpr t0 hmemT
          have hck : rowCheckOk { claimUpdate t0 now with
              status := TaskStatus.pending, completionSummary := none } = true := by
            rw [rowCheckOk_eq_true]
            refine ⟨?_, by simp⟩
            show 0 ≤ (claimUpdate t0 now).priority ∧ (claimUpdate t0 now).priority ≤ 10
            rw [claimUpdate_priority]
            exact hprt0
          have hval : validateStatusTransition (claimUpdate t0 now).status
              TaskStatus.pending = true := by
            rw [claimUpdate_status]
            decide
          have hok := @updateTaskStatus_ok_of _ _ TaskStatus.pending none now _
            hfind1 hval hck
          have hred : spawnLoop now (n + 1) o s =
              spawnLoop now n o { s with
                tasks := mapUpdate (mapUpdate s.tasks t0.id (fun t => claimUpdate t now))
                  t0.id (fun u => applyStatusUpdate u TaskStatus.pending none now) } := by
            simp only [spawnLoop]
            rw [if_pos hcs, heq]
            dsimp only
            rw [if_pos hbk, claimUpdate_id t0 now, hok]
          rw [hred]
          have hids2 : ((mapUpdate
              (mapUpdate s.tasks t0.id (fun t => claimUpdate t now)) t0.id
              (fun u => applyStatusUpdate u TaskStatus.pending none now)).map
                (fun t => t.id)).Nodup := by
            rw [mapUpdate_map_id _ _ _
              (fun u => applyStatusUpdate_id u TaskStatus.pending none now),
              mapUpdate_map_id _ _ _ (fun u => claimUpdate_id u now)]
            exact hids
          have hpr2 : ∀ t ∈ mapUpdate
              (mapUpdate s.tasks t0.id (fun t => claimUpdate t now)) t0.id
              (fun u => applyStatusUpdate u TaskStatus.pending none now),
              0 ≤ t.priority ∧ t.priority ≤ 10 :=
            mapUpdate_priority_bounds _ _ _
              (fun u => applyStatusUpdate_priority u TaskStatus.pending none now)
              (mapUpdate_priority_bounds _ _ _ (fun u => claimUpdate_priority u now) hpr)
          obtain ⟨ihA, ihB, ihC⟩ := ih o { s with
            tasks := mapUpdate (mapUpdate s.tasks t0.id (fun t => claimUpdate t now))
              t0.id (fun u => applyStatusUpdate u TaskStatus.pending none now) }
            hids2 hpr2
          refine ⟨ihA, ?_, ihC⟩
          intro id hback hpend
          apply ihB id hback
          by_cases hid : id = t0.id
          · show ((mapUpdate (mapUpdate s.tasks t0.id _) t0.id _).find? _).map _ = _
            rw [findTask_mapUpdate _ _ _
              (fun u => applyStatusUpdate_id u TaskStatus.pending none now) id,
              if_pos hid.symm, hid]
            have hface : (mapUpdate s.tasks t0.id (fun t => claimUpdate t now)).find?
                (fun u => u.id = t0.id) = some (claimUpdate t0 now) := hfind1
            rw [hface]
            simp [applyStatusUpdate_status]
          · show ((mapUpdate (mapUpdate s.tasks t0.id _) t0.id _).find? _).map _ = _
            rw [findTask_mapUpdate _ _ _
              (fun u => applyStatusUpdate_id u TaskStatus.pending none now) id,
              if_neg (fun hq => hid hq.symm),
              findTask_mapUpdate _ _ _ (fun u => claimUpdate_id u now) id,
              if_neg (fun hq => hid hq.symm)]
            exact hpend
        · have hred : spawnLoop now (n + 1) o s =
              ((spawnLoop now n
                  (spawnWorkerLocked { o with lastSpawnTime := some now }
                    (claimUpdate t0 now).id)
                  { s with
                    tasks := mapUpdate s.tasks t0.id (fun t => claimUpdate t now) }).1,
               (spawnLoop now n
                  (spawnWorkerLocked { o with lastSpawnTime := some now }
                    (claimUpdate t0 now).id)
                  { s with
                    tasks := mapUpdate s.tasks t0.id (fun t => claimUpdate t now) }).2.1,
               (claimUpdate t0 now).id ::
                 (spawnLoop now n
                    (spawnWorkerLocked { o with lastSpawnTime := some now }
                      (claimUpdate t0 now).id)
                    { s with
                      tasks :=
                        mapUpdate s.tasks t0.id (fun t => claimUpdate t now) }).2.2) := by
            simp only [spawnLoop]
            rw [if_pos hcs, heq]
            dsimp only
            rw [if_neg hbk]
          rw [hred]
          have hback_eq : ∀ id, isTaskInBackoff
              (spawnWorkerLocked { o with lastSpawnTime := some now }
                (claimUpdate t0 now).id) now id = isTaskInBackoff o now id := by
            intro id
            exact isTaskInBackoff_congr (by rw [spawnWorkerLocked_failedTasks])
              (by rw [spawnWorkerLocked_backoffDuration]) now id
          obtain ⟨ihA, ihB, ihC⟩ := ih
            (spawnWorkerLocked { o with lastSpawnTime := some now }
              (claimUpdate t0 now).id) _ hids1 hpr1
          refine ⟨?_, ?_, ?_⟩
          · intro id hid
            rcases List.mem_cons.1 hid with rfl | hid'
            · revert hbk
              cases isTaskInBackoff o now (claimUpdate t0 now).id <;> simp
            · have h := ihA id hid'
              rw [hback_eq id] at h
              exact h
          · intro id hback hpend
            have hne : ¬ id = t0.id := by
              intro hidq
              apply hbk
              rw [claimUpdate_id, ← hidq]
              exact hback
            have hfr : findTask { s with
                tasks := mapUpdate s.tasks t0.id (fun t => claimUpdate t now) } id =
                  findTask s id := by
              show (mapUpdate s.tasks t0.id _).find? _ = _
              rw [findTask_mapUpdate _ _ _ (fun u => claimUpdate_id u now) id,
                if_neg (fun hq => hne hq.symm)]
              rfl
            exact ihB id (by rw [hback_eq id]; exact hback) (by rw [hfr]; exact hpend)
          · intro p hp
            rcases ihC p hp with hpo | hps
            · rcases spawnWorkerLocked_workers_mem _ _ p hpo with hpo' | hpt
              · exact Or.inl hpo'
              · exact Or.inr (by rw [hpt]; exact List.mem_cons_self _ _)
            · exact Or.inr (List.mem_cons_of_mem _ hps)
    · have hred : spawnLoop now (n + 1) o s = (o, s, []) := by
        simp only [spawnLoop]
        rw [if_neg hcs]
      rw [hred]
      exact ⟨fun id hid => absurd hid (List.not_mem_nil id), fun id _ h => h,
        fun p hp => Or.inl hp⟩

/-! ## Claim C8 -/

/-- C8: over a store with distinct task ids and in-range priorities (the
table invariants), the spawn pass never dispatches a task whose most
recent recorded failure is within backoffDuration of `now`: every
dispatched task id is outside backoff, every backoff task that was
pending is pending again when the pass ends (a claim of it is immediately
reverted rather than spawned), and every worker the pass leaves behind
either predates it or is bound to a dispatched — hence non-backoff —
task. -/
theorem trySpawnWorkers_backoff (o : OrchState) (s : Store) (now : Int)
    (hids : (s.tasks.map (fun t => t.id)).Nodup)
    (hpr : ∀ t ∈ s.tasks, 0 ≤ t.priority ∧ t.priority ≤ 10) :
    (∀ id ∈ (trySpawnWorkers o s now).2.2, isTaskInBackoff o now id = false) ∧
    (∀ id, isTaskInBackoff o now id = true →
      (findTask s id).map (fun t => t.status) = some TaskStatus.pending →
      (findTask (trySpawnWorkers o s now).2.1 id).map (fun t => t.status) =
        some TaskStatus.pending) ∧
    (∀ p ∈ (trySpawnWorkers o s now).1.workers,
      p ∈ o.workers ∨ p.2 ∈ (trySpawnWorkers o s now).2.2) := by
  unfold trySpawnWorkers
  dsimp only
  split_ifs with h1 h2 h3 h4
  · exact ⟨fun id hid => absurd hid (List.not_mem_nil id), fun id _ h => h,
      fun p hp => Or.inl hp⟩
  · exact ⟨fun id hid => absurd hid (List.not_mem_nil id), fun id _ h => h,
      fun p hp => Or.inl hp⟩
  · exact ⟨fun id hid => absurd hid (List.not_mem_nil id), fun id _ h => h,
      fun p hp => Or.inl hp⟩
  · exact spawnLoop_spec now _ o s hids hpr
  · exact ⟨fun id hid => absurd hid (List.not_mem_nil id), fun id _ h => h,
      fun p hp => Or.inl hp⟩

/-- C8 witness: with task 1 in backoff (failed at 100, backoff 30,
now 110) and task 2 available, the pass dispatches only non-backoff
tasks and leaves task 1 pending. -/
theorem trySpawnWorkers_backoff_witness :
    (∀ id ∈ (trySpawnWorkers c8Orch c8Store 110).2.2,
      isTaskInBackoff c8Orch 110 id = false) ∧
    (∀ id, isTaskInBackoff c8Orch 110 id = true →
      (findTask c8Store id).map (fun t => t.status) = some TaskStatus.pending →
      (findTask (trySpawnWorkers c8Orch c8Store 110).2.1 id).map (fun t => t.status) =
        some TaskStatus.pending) ∧
    (∀ p ∈ (trySpawnWorkers c8Orch c8Store 110).1.workers,
      p ∈ c8Orch.workers ∨ p.2 ∈ (trySpawnWorkers c8Orch c8Store 110).2.2) :=
  trySpawnWorkers_backoff c8Orch c8Store 110 (by decide) (by decide)

/-! ## Lemmas for the batch committer -/

/-- For a task staged with an empty feature id and a non-empty feature
name, the source resolution is exactly the map-first, store-second
resolution the spec describes. -/
theorem resolveStagedFeature_eq_spec (s : Store) (fids : List (String × Nat))
    (t : STask) (h1 : t.featureId = none) (h2 : t.featureName ≠ "") :
    resolveStagedFeature s fids t = specResolveStagedFeature s fids t := by
  unfold resolveStagedFeature specResolveStagedFeature
  rw [h1]
  dsimp only
  rw [if_pos h2]

/-- The task pass coincides with its spec description when every staged
task is referenced by name. -/
theorem commitTasks_eq_spec :
    ∀ (ts : List STask) (s : Store) (fids tids : List (String × Nat)) (fresh : Nat)
      (now : Int), (∀ t ∈ ts, t.featureId = none ∧ t.featureName ≠ "") →
      commitTasks s fids tids fresh now ts = specCommitTasks s fids tids fresh now ts := by
  intro ts
  induction ts with
  | nil => intro s fids tids fresh now _; rfl
  | cons t ts ih =>
    intro s fids tids fresh now h
    have ht := h t (List.mem_cons_self t ts)
    simp only [commitTasks, specCommitTasks]
    rw [resolveStagedFeature_eq_spec s fids t ht.1 ht.2]
    cases hr : specResolveStagedFeature s fids t with
    | error e => rfl
    | ok fid? =>
      dsimp only
      cases hc : createTaskTx s t fid? fresh now with
      | error e => rfl
      | ok r =>
        obtain ⟨s1, tid, fresh1⟩ := r
        dsimp only
        exact ih s1 fids ((t.featureName ++ ":" ++ t.name, tid) :: tids) fresh1 now
          (fun u hu => h u (List.mem_cons_of_mem t hu))

/-- The dependency pass coincides with its spec description when every
staged dependency is referenced by name. -/
theorem commitDeps_eq_spec :
    ∀ (ds : List SDep) (s : Store) (tids : List (String × Nat)),
      (∀ d ∈ ds, d.taskId = none ∧ d.dependsOnTaskId = none) →
      commitDeps s tids ds = specCommitDeps s tids ds := by
  intro ds
  induction ds with
  | nil => intro s tids _; rfl
  | cons d ds ih =>
    intro s tids h
    have hd := h d (List.mem_cons_self d ds)
    simp only [commitDeps, specCommitDeps]
    rw [hd.1, hd.2]
    show (match specResolveDepEndpoint s tids d.featureName d.taskName with
      | Except.error e => Except.error e
      | Except.ok u =>
        match specResolveDepEndpoint s tids d.dependsOnFeatureName d.dependsOnTaskName with
        | Except.error e => Except.error e
        | Except.ok v =>
          match createDependency s u v with
          | Except.error e => Except.error e
          | Except.ok s' => commitDeps s' tids ds) = _
    cases h1 : specResolveDepEndpoint s tids d.featureName d.taskName with
    | error e => rfl
    | ok u =>
      dsimp only
      cases h2 : specResolveDepEndpoint s tids d.dependsOnFeatureName
          d.dependsOnTaskName with
      | error e => rfl
      | ok v =>
        dsimp only
        cases h3 : createDependency s u v with
        | error e => rfl
        | ok s' =>
          dsimp only
          exact ih s' tids (fun x hx => h x (List.mem_cons_of_mem d hx))

/-- The whole batch body coincides with its spec description when the
batch is name-referenced. -/
theorem commitBatch_eq_spec (s : Store) (items : StagedItems) (fresh : Nat) (now : Int)
    (h1 : ∀ t ∈ items.tasks, t.featureId = none ∧ t.featureName ≠ "")
    (h2 : ∀ d ∈ items.dependencies, d.taskId = none ∧ d.dependsOnTaskId = none) :
    commitBatch s items fresh now = specCommitBatch s items fresh now := by
  unfold commitBatch specCommitBatch
  cases hf : commitFeatures s [] fresh now items.features with
  | error e => rfl
  | ok r =>
    obtain ⟨s1, fids, fresh1⟩ := r
    dsimp only
    rw [commitTasks_eq_spec items.tasks s1 fids [] fresh1 now h1]
    cases ht : specCommitTasks s1 fids [] fresh1 now items.tasks with
    | error e => rfl
    | ok r2 =>
      obtain ⟨s2, tids, fresh2⟩ := r2
      dsimp only
      exact commitDeps_eq_spec items.dependencies s2 tids h2

/-- `GetAndClear` hands out exactly what `Peek` shows. -/
theorem getAndClear_fst_eq_peek (sm : StagingMap) (session : String) :
    (getAndClear sm session).1 = peekStaged sm session := by
  unfold getAndClear peekStaged
  cases sm.find? (fun p => p.1 = session) <;> rfl

/-- After `GetAndClear`, the session key is gone from the map. -/
theorem getAndClear_find_none (sm : StagingMap) (session : String) :
    (getAndClear sm session).2.find? (fun p => p.1 = session) = none := by
  unfold getAndClear
  cases hf : sm.find? (fun p => p.1 = session) with
  | none => exact hf
  | some p =>
    dsimp only
    rw [List.find?_eq_none]
    intro x hx
    have := (List.mem_filter.1 hx).2
    simpa using this

/-- The first component of a `CommitBatch` run is always the cleared
staging map, whether or not the transaction succeeds. -/
theorem commitBatchFull_fst (sm : StagingMap) (s : Store) (session : String)
    (fresh : Nat) (now : Int) :
    (commitBatchFull sm s session fresh now).1 = (getAndClear sm session).2 := by
  unfold commitBatchFull
  dsimp only
  cases commitBatch s (getAndClear sm session).1 fresh now <;> rfl

/-- `Peek` of an absent session is the empty buffer. -/
theorem peekStaged_of_find_none (sm : StagingMap) (session : String)
    (h : sm.find? (fun p => p.1 = session) = none) :
    peekStaged sm session = StagedItems.empty := by
  unfold peekStaged
  rw [h]

/-- `GetAndClear` of an absent session returns the empty buffer and does
not touch the map. -/
theorem getAndClear_of_find_none (sm : StagingMap) (session : String)
    (h : sm.find? (fun p => p.1 = session) = none) :
    getAndClear sm session = (StagedItems.empty, sm) := by
  unfold getAndClear
  rw [h]

/-- Committing a session with nothing staged succeeds and changes
nothing. -/
theorem commitBatchFull_of_find_none (sm : StagingMap) (s : Store) (session : String)
    (fresh : Nat) (now : Int) (h : sm.find? (fun p => p.1 = session) = none) :
    commitBatchFull sm s session fresh now = (sm, s, none) := by
  unfold commitBatchFull
  rw [getAndClear_of_find_none sm session h]
  rfl

/-! ## Claim C6 -/

/-- C6: `CommitBatch` is all-or-nothing: on any error — a failed
resolution or a failed insert — the persistent store is exactly the
pre-call store, and on success the result is precisely the spec's batch
application: features inserted first in order, each task's owning feature
and each dependency's endpoints resolved through the in-batch name map
first and the (transaction view of the) store second, aborting when
neither resolves.  Stated for name-referenced batches, which is how the
staging tools produce them. -/
theorem commitBatch_atomic (sm : StagingMap) (s : Store) (session : String)
    (fresh : Nat) (now : Int)
    (h1 : ∀ t ∈ (peekStaged sm session).tasks, t.featureId = none ∧ t.featureName ≠ "")
    (h2 : ∀ d ∈ (peekStaged sm session).dependencies,
      d.taskId = none ∧ d.dependsOnTaskId = none) :
    ((commitBatchFull sm s session fresh now).2.2.isSome →
      (commitBatchFull sm s session fresh now).2.1 = s) ∧
    ((commitBatchFull sm s session fresh now).2.2 = none →
      specCommitBatch s (peekStaged sm session) fresh now =
        Except.ok (commitBatchFull sm s session fresh now).2.1) := by
  unfold commitBatchFull
  dsimp only
  rw [getAndClear_fst_eq_peek, commitBatch_eq_spec s (peekStaged sm session) fresh now h1 h2]
  cases hc : specCommitBatch s (peekStaged sm session) fresh now with
  | error e =>
    refine ⟨fun _ => rfl, fun h => ?_⟩
    exact Option.noConfusion h
  | ok s' => exact ⟨fun h => absurd h (by simp), fun _ => rfl⟩

/-- C6 witness: committing the staged auth batch into the empty store
succeeds and matches the spec application. -/
theorem commitBatch_atomic_witness :
    ((commitBatchFull c6Staging emptyStore "sess1" 1 0).2.2.isSome →
      (commitBatchFull c6Staging emptyStore "sess1" 1 0).2.1 = emptyStore) ∧
    ((commitBatchFull c6Staging emptyStore "sess1" 1 0).2.2 = none →
      specCommitBatch emptyStore (peekStaged c6Staging "sess1") 1 0 =
        Except.ok (commitBatchFull c6Staging emptyStore "sess1" 1 0).2.1) :=
  commitBatch_atomic c6Staging emptyStore "sess1" 1 0 (by decide) (by decide)

/-! ## Claim C10 -/

/-- C10: `CommitBatch` takes the session buffer before the transaction
and never restores it: after a failing commit the session is empty —
`Peek` and `GetAndClear` both hand back empty buffers — and an immediate
second `CommitBatch` of the same session succeeds while changing
nothing. -/
theorem commitBatch_clears_staging (sm : StagingMap) (s : Store) (session : String)
    (fresh : Nat) (now : Int) (e : String)
    (herr : (commitBatchFull sm s session fresh now).2.2 = some e) :
    peekStaged (commitBatchFull sm s session fresh now).1 session =
      StagedItems.empty ∧
    (getAndClear (commitBatchFull sm s session fresh now).1 session).1 =
      StagedItems.empty ∧
    (getAndClear (commitBatchFull sm s session fresh now).1 session).2 =
      (commitBatchFull sm s session fresh now).1 ∧
    ∀ (fresh' : Nat) (now' : Int),
      commitBatchFull (commitBatchFull sm s session fresh now).1
          (commitBatchFull sm s session fresh now).2.1 session fresh' now' =
        ((commitBatchFull sm s session fresh now).1,
         (commitBatchFull sm s session fresh now).2.1, none) := by
  have hnone := getAndClear_find_none sm session
  rw [commitBatchFull_fst]
  refine ⟨?_, ?_, ?_, ?_⟩
  · exact peekStaged_of_find_none _ _ hnone
  · rw [getAndClear_of_find_none _ _ hnone]
  · rw [getAndClear_of_find_none _ _ hnone]
  · intro fresh' now'
    exact commitBatchFull_of_find_none _ _ _ _ _ hnone

/-- C10 witness: a batch whose task names an unknown feature; the commit
errors, the session buffer is gone, and the repeated commit is a no-op
success. -/
theorem commitBatch_clears_staging_witness :
    peekStaged (commitBatchFull c10Staging emptyStore "s" 0 0).1 "s" =
      StagedItems.empty ∧
    (getAndClear (commitBatchFull c10Staging emptyStore "s" 0 0).1 "s").1 =
      StagedItems.empty ∧
    (getAndClear (commitBatchFull c10Staging emptyStore "s" 0 0).1 "s").2 =
      (commitBatchFull c10Staging emptyStore "s" 0 0).1 ∧
    ∀ (fresh' : Nat) (now' : Int),
      commitBatchFull (commitBatchFull c10Staging emptyStore "s" 0 0).1
          (commitBatchFull c10Staging emptyStore "s" 0 0).2.1 "s" fresh' now' =
        ((commitBatchFull c10Staging emptyStore "s" 0 0).1,
         (commitBatchFull c10Staging emptyStore "s" 0 0).2.1, none) :=
  commitBatch_clears_staging c10Staging emptyStore "s" 0 0
    "feature not found for task" rfl

end Ponder
